import Mathlib

/-!
Verification of the `rust_container` library (`src/lib.rs`): a type-keyed
registry that resolves values by static type, optionally disambiguated by a
"specialization" discriminant, with lazy memoizing factories.

Shallow-embedding conventions, in order of appearance in the source:

* `TypeId` (Rust `std::any::TypeId`) is modelled as `Nat`: an opaque,
  decidably comparable token; two identities are equal iff they denote the
  same type.
* `Arc<dyn Any>` is modelled as `AnyVal`: a runtime type tag (the `TypeId`
  of the stored `T`, checked by `downcast_ref`) together with an integer
  payload.  Equality of `AnyVal` models `Arc` handle identity: Rust's
  `.clone()` of a resolved shared handle copies the pointer, so two equal
  `AnyVal`s denote the identical underlying allocation.
* A registered factory closure `Fn(&Container) -> Result<T, ContainerError>`
  cannot be stored in the state as a literal Lean function
  (`Container → ...` inside `Container` violates strict positivity), so it
  is defunctionalized as `FactoryProg`: the list of keys the closure
  resolves re-entrantly through the container it receives, in order, each
  propagated with `?` on failure, followed by a pure `build` step mapping
  the resolved dependency values to `Ok`/`Err`.  This is exactly the shape
  of every factory in the repository (e.g.
  `Ok(Arc::new(WholeFoods::new(container.default()?, container.default()?)))`).
* `RefCell` interior mutability becomes explicit state passing; resolution
  returns the updated `Container` alongside the result.
* Rust recursion through factories can diverge (a factory that re-triggers
  its own construction overflows the stack), so the interpreter `exec`
  carries fuel; `ExecRes.outOfFuel` models divergence, and
  `ExecRes.panic` models the `downcast_ref::<T>().unwrap()` panic.
* The resolution trace (`List CKey`) records each factory invocation —
  the moments the source executes `factory(self)` — so that "invoked at
  most once" is statable.
* The discriminant bridging `i32: From<S>` / `S: From<i32>` (required by
  the API bounds to be a lossless injective pair) is modelled by using the
  `i32` image (`Int`) directly as the discriminant value.
-/

/-- Models `std::any::TypeId`: an opaque comparable token for a static type. -/
abbrev TypeId := Nat

/-- Models `ContainerError` (src/lib.rs lines 10-15).  The payload of
`FactoryError`'s `Box<dyn Error>` cause is modelled as an opaque `Nat` token. -/
inductive ContainerError where
  | MissingEntry
  | MissingSpecializedEntry
  | FactoryError (error : Nat)
deriving DecidableEq, Repr

/-- Models `Arc<dyn Any>`: `type_id` is the runtime tag consulted by
`downcast_ref`, `val` the payload; equality models `Arc` handle identity. -/
structure AnyVal where
  type_id : TypeId
  val : Int
deriving DecidableEq, Repr

/-- A key as it appears in resolution requests and in the invocation trace:
either a default key (a bare `TypeId`) or a specialized key. -/
structure KnownSpecializationKey where
  type_id : TypeId
  specialization_type_id : TypeId
deriving DecidableEq, Repr

/-- Models `SpecializedEntryKey` (src/lib.rs lines 90-116): the triple of
owning-type identity, discriminant-type identity, and discriminant value. -/
structure SpecializedEntryKey where
  type_id : TypeId
  specialization_type_id : TypeId
  specialization_value : Int
deriving DecidableEq, Repr

/-- A container key: a default key (bare type identity) or a specialized key.
Used both for factory dependency lists and for the invocation trace. -/
inductive CKey where
  | dflt (tid : TypeId)
  | spec (sk : SpecializedEntryKey)
deriving DecidableEq, Repr

/-- Defunctionalized factory closure `Fn(&Container) -> Result<T, ContainerError>`:
`deps` are the keys the closure resolves re-entrantly through the container
(each propagated with `?` on failure), `build` the pure final step producing
the new instance's payload or the closure's error. -/
structure FactoryProg where
  deps : List CKey
  build : List AnyVal → Except ContainerError Int

/-- Models `ContainerEntry` (src/lib.rs lines 148-152). -/
inductive ContainerEntry where
  | Instance (v : AnyVal)
  | Factory (f : FactoryProg)
  | SpecializedFactory (f : FactoryProg)

/-- Whether an entry is the `Instance` variant. -/
def ContainerEntry.isInst : ContainerEntry → Bool
  | .Instance _ => true
  | _ => false

/-- Whether an entry is the `Factory` variant. -/
def ContainerEntry.isFac : ContainerEntry → Bool
  | .Factory _ => true
  | _ => false

/-- Whether an entry is the `SpecializedFactory` variant. -/
def ContainerEntry.isSpecFac : ContainerEntry → Bool
  | .SpecializedFactory _ => true
  | _ => false

/-- Association-list model of `HashMap` lookup (`get`): the first binding of
the key, if any. -/
def mapLookup {K V : Type} [DecidableEq K] : List (K × V) → K → Option V
  | [], _ => none
  | (k', v) :: m, k => if k' = k then some v else mapLookup m k

/-- Association-list model of `HashMap::insert`: overwrites any previous
binding of the key, keeping at most one entry per key. -/
def mapInsert {K V : Type} [DecidableEq K] (m : List (K × V)) (k : K) (v : V) :
    List (K × V) :=
  (k, v) :: m.filter (fun p => ¬ p.1 = k)

/-- Model of `HashSet<i32>::insert` on a duplicate-free list. -/
def setInsert (s : List Int) (x : Int) : List Int :=
  if x ∈ s then s else s ++ [x]

/-- Models `Container` (src/lib.rs lines 170-175): the default entry store,
the specialized entry store, and the known-specializations sets.  The
`RefCell`s become explicit state passing; the lifetime phantom is erased. -/
structure Container where
  entries : List (TypeId × ContainerEntry)
  specialized_entries : List (SpecializedEntryKey × ContainerEntry)
  specializations : List (KnownSpecializationKey × List Int)

/-- Models `Container::new`. -/
def Container.new : Container := ⟨[], [], []⟩

/-- Models `Container::register_instance` (src/lib.rs lines 187-193): stores
the value under its own type's default key.  The stored `AnyVal` is tagged
`tid` because in the source the value has static type `T` and the key is
`TypeId::of::<T>()`. -/
def Container.register_instance (c : Container) (tid : TypeId) (v : Int) : Container :=
  { c with entries := mapInsert c.entries tid (.Instance ⟨tid, v⟩) }

/-- Models the private `Container::register_specialization`
(src/lib.rs lines 343-355): inserts the discriminant value into the
known-specializations set for the (owning type, discriminant type) pair,
creating the set if absent. -/
def Container.register_specialization (c : Container) (tid sid : TypeId)
    (sval : Int) : Container :=
  let key : KnownSpecializationKey := ⟨tid, sid⟩
  let cur := (mapLookup c.specializations key).getD []
  { c with specializations := mapInsert c.specializations key (setInsert cur sval) }

/-- Models `Container::register_specialized_instance` (src/lib.rs lines 195-206). -/
def Container.register_specialized_instance (c : Container) (tid sid : TypeId)
    (sval : Int) (v : Int) : Container :=
  let sk : SpecializedEntryKey := ⟨tid, sid, sval⟩
  let c1 := { c with
    specialized_entries := mapInsert c.specialized_entries sk (.Instance ⟨tid, v⟩) }
  c1.register_specialization tid sid sval

/-- Models `Container::register_factory` (src/lib.rs lines 208-221): stores the
factory under the target type's default key.  The wrapping of the produced
`T` into `Arc<dyn Any>` (`any_factory`) is performed at invocation time by
`exec`, which tags the produced value with the entry's key type. -/
def Container.register_factory (c : Container) (tid : TypeId) (f : FactoryProg) :
    Container :=
  { c with entries := mapInsert c.entries tid (.Factory f) }

/-- Models `Container::register_specialized_factory` (src/lib.rs lines 223-240). -/
def Container.register_specialized_factory (c : Container) (tid sid : TypeId)
    (sval : Int) (f : FactoryProg) : Container :=
  let sk : SpecializedEntryKey := ⟨tid, sid, sval⟩
  let c1 := { c with
    specialized_entries := mapInsert c.specialized_entries sk (.SpecializedFactory f) }
  c1.register_specialization tid sid sval

/-- Interpreter request: resolve a default key (`Container::default`), resolve
a specialized key (`Container::specialized`), resolve a factory's dependency
list in order, or invoke a factory (`factory(self)` wrapped as `any_factory`,
tagging the produced value with the owning type `tid`). -/
inductive Req where
  | dflt (tid : TypeId)
  | spec (sk : SpecializedEntryKey)
  | deps (ds : List CKey)
  | fac (tid : TypeId) (f : FactoryProg)

/-- The resolution request a factory dependency key gives rise to. -/
def CKey.toReq : CKey → Req
  | .dflt tid => .dflt tid
  | .spec sk => .spec sk

/-- Interpreter result: a resolved value, a resolved dependency list, a
`ContainerError`, the `downcast_ref(..).unwrap()` panic, or fuel exhaustion
(modelling divergence of cyclically re-entrant factories). -/
inductive ExecRes where
  | val (v : AnyVal)
  | vals (vs : List AnyVal)
  | err (e : ContainerError)
  | panic
  | outOfFuel
deriving DecidableEq, Repr

/-- The resolution engine (src/lib.rs lines 242-320), fuel-indexed.

`.dflt tid` mirrors `Container::default`: look the key up; an absent key or a
`SpecializedFactory` entry (the `_ =>` arm) yields `MissingEntry`; an
`Instance` is downcast (tag check; `unwrap` panic on mismatch) and returned;
a `Factory` is invoked with the current container, on success the produced
value overwrites the entry (memoization) and resolution restarts, on failure
the factory's error is returned as is.  `.spec sk` mirrors
`Container::specialized` with `MissingSpecializedEntry` and the
`SpecializedFactory` variant.  `.deps` resolves a factory's re-entrant
lookups in order, aborting on first failure (`?`).  `.fac` invokes a factory:
resolve its dependencies, then `build`, wrapping a produced payload as a new
`Arc` tagged with the owning type.  Each factory invocation is recorded in
the returned trace. -/
def exec : Nat → Req → Container → ExecRes × Container × List CKey
  | 0, _, c => (.outOfFuel, c, [])
  | n + 1, .dflt tid, c =>
    match mapLookup c.entries tid with
    | none => (.err .MissingEntry, c, [])
    | some (.Instance v) =>
      if v.type_id = tid then (.val v, c, []) else (.panic, c, [])
    | some (.Factory f) =>
      match exec n (.fac tid f) c with
      | (.val v, c1, tr) =>
        let c2 := { c1 with entries := mapInsert c1.entries tid (.Instance v) }
        let r := exec n (.dflt tid) c2
        (r.1, r.2.1, .dflt tid :: (tr ++ r.2.2))
      | (res, c1, tr) => (res, c1, .dflt tid :: tr)
    | some (.SpecializedFactory _) => (.err .MissingEntry, c, [])
  | n + 1, .spec sk, c =>
    match mapLookup c.specialized_entries sk with
    | none => (.err .MissingSpecializedEntry, c, [])
    | some (.Instance v) =>
      if v.type_id = sk.type_id then (.val v, c, []) else (.panic, c, [])
    | some (.SpecializedFactory f) =>
      match exec n (.fac sk.type_id f) c with
      | (.val v, c1, tr) =>
        let c2 := { c1 with
          specialized_entries := mapInsert c1.specialized_entries sk (.Instance v) }
        let r := exec n (.spec sk) c2
        (r.1, r.2.1, .spec sk :: (tr ++ r.2.2))
      | (res, c1, tr) => (res, c1, .spec sk :: tr)
    | some (.Factory _) => (.err .MissingSpecializedEntry, c, [])
  | _ + 1, .deps [], c => (.vals [], c, [])
  | n + 1, .deps (d :: ds), c =>
    match exec n d.toReq c with
    | (.val v, c1, tr1) =>
      match exec n (.deps ds) c1 with
      | (.vals vs, c2, tr2) => (.vals (v :: vs), c2, tr1 ++ tr2)
      | (res, c2, tr2) => (res, c2, tr1 ++ tr2)
    | (res, c1, tr1) => (res, c1, tr1)
  | n + 1, .fac tid f, c =>
    match exec n (.deps f.deps) c with
    | (.vals vs, c1, tr) =>
      match f.build vs with
      | .ok p => (.val ⟨tid, p⟩, c1, tr)
      | .error e => (.err e, c1, tr)
    | (res, c1, tr) => (res, c1, tr)

/-- Models `Container::default` (src/lib.rs lines 242-278). -/
def Container.default (fuel : Nat) (c : Container) (tid : TypeId) :
    ExecRes × Container × List CKey :=
  exec fuel (.dflt tid) c

/-- Models `Container::specialized` (src/lib.rs lines 280-320), with the
specialized key already computed from `(T, S, i32::from(specialization))`. -/
def Container.specialized (fuel : Nat) (c : Container) (tid sid : TypeId)
    (sval : Int) : ExecRes × Container × List CKey :=
  exec fuel (.spec ⟨tid, sid, sval⟩) c

/-- The enumeration loop of `Container::all_specialized` (src/lib.rs lines
332-340): resolve each known discriminant value in iteration order, abort on
the first failure (discarding partial results), collect successes. -/
def allSpecializedLoop (fuel : Nat) (c : Container) (tid sid : TypeId) :
    List Int → ExecRes × Container × List CKey
  | [] => (.vals [], c, [])
  | sval :: rest =>
    match exec fuel (.spec ⟨tid, sid, sval⟩) c with
    | (.val x, c1, tr1) =>
      match allSpecializedLoop fuel c1 tid sid rest with
      | (.vals xs, c2, tr2) => (.vals (x :: xs), c2, tr1 ++ tr2)
      | (res, c2, tr2) => (res, c2, tr1 ++ tr2)
    | (res, c1, tr1) => (res, c1, tr1)

/-- Models `Container::all_specialized` (src/lib.rs lines 322-341): read (or
lazily create as empty, `entry(..).or_insert_with`) the known-specializations
set for the pair, then resolve every recorded value in iteration order. -/
def Container.all_specialized (fuel : Nat) (c : Container) (tid sid : TypeId) :
    ExecRes × Container × List CKey :=
  let key : KnownSpecializationKey := ⟨tid, sid⟩
  let known := (mapLookup c.specializations key).getD []
  let c0 :=
    if (mapLookup c.specializations key).isSome then c
    else { c with specializations := mapInsert c.specializations key [] }
  allSpecializedLoop fuel c0 tid sid known

/-- A call through the container's public API, for reachability statements. -/
inductive Op where
  | regInstance (tid : TypeId) (v : Int)
  | regFactory (tid : TypeId) (f : FactoryProg)
  | regSpecInstance (tid sid : TypeId) (sval v : Int)
  | regSpecFactory (tid sid : TypeId) (sval : Int) (f : FactoryProg)
  | resolveDflt (fuel : Nat) (tid : TypeId)
  | resolveSpec (fuel : Nat) (tid sid : TypeId) (sval : Int)
  | resolveAll (fuel : Nat) (tid sid : TypeId)

/-- The container state after one public API call. -/
def applyOp (c : Container) : Op → Container
  | .regInstance tid v => c.register_instance tid v
  | .regFactory tid f => c.register_factory tid f
  | .regSpecInstance tid sid sval v => c.register_specialized_instance tid sid sval v
  | .regSpecFactory tid sid sval f => c.register_specialized_factory tid sid sval f
  | .resolveDflt fuel tid => (c.default fuel tid).2.1
  | .resolveSpec fuel tid sid sval => (c.specialized fuel tid sid sval).2.1
  | .resolveAll fuel tid sid => (c.all_specialized fuel tid sid).2.1

/-- The container state after a sequence of public API calls. -/
def runOps (c : Container) (ops : List Op) : Container := ops.foldl applyOp c

/-- The known-specializations set recorded for an (owning type, discriminant
type) pair, as read by `all_specialized` (empty if never created). -/
def knownSet (c : Container) (tid sid : TypeId) : List Int :=
  (mapLookup c.specializations ⟨tid, sid⟩).getD []

/-! ### Association-list map lemmas -/

/-- Keys other than the filtered-out one are unaffected by the removal step
of `mapInsert`. -/
theorem mapLookup_filter_ne {K V : Type} [DecidableEq K] (m : List (K × V)) (k k' : K)
    (h : k' ≠ k) :
    mapLookup (m.filter (fun p => ¬ p.1 = k)) k' = mapLookup m k' := by
  induction m with
  | nil => rfl
  | cons p ps ih =>
    by_cases hp : p.1 = k
    · have hp' : ¬ (p.1 = k') := by rw [hp]; exact fun hh => h hh.symm
      simp only [List.filter_cons, hp, not_true_eq_false, decide_False,
        Bool.false_eq_true, if_false]
      rw [ih]
      cases p with
      | mk a b => simp only [mapLookup]
                  rw [if_neg (by intro hh; exact hp' hh)]
    · simp only [List.filter_cons, hp, not_false_eq_true, decide_True, if_true]
      cases p with
      | mk a b =>
        simp only [mapLookup]
        by_cases hp' : a = k'
        · rw [if_pos hp', if_pos hp']
        · rw [if_neg hp', if_neg hp']
          exact ih

/-- Inserting a binding makes it the one returned for its key. -/
theorem mapLookup_insert_self {K V : Type} [DecidableEq K]
    (m : List (K × V)) (k : K) (v : V) : mapLookup (mapInsert m k v) k = some v := by
  simp [mapLookup, mapInsert]

/-- Inserting a binding leaves every other key's binding unchanged. -/
theorem mapLookup_insert_ne {K V : Type} [DecidableEq K]
    (m : List (K × V)) (k k' : K) (v : V) (h : k' ≠ k) :
    mapLookup (mapInsert m k v) k' = mapLookup m k' := by
  simp only [mapInsert, mapLookup]
  rw [if_neg (fun hh => h hh.symm)]
  exact mapLookup_filter_ne m k k' h

/-- Membership in the model of `HashSet::insert`. -/
theorem setInsert_mem (s : List Int) (x y : Int) :
    y ∈ setInsert s x ↔ y = x ∨ y ∈ s := by
  unfold setInsert
  by_cases hx : x ∈ s
  · simp only [hx, if_true]
    constructor
    · exact fun h => Or.inr h
    · rintro (rfl | h) <;> [exact hx; exact h]
  · simp only [hx, if_false, List.mem_append, List.mem_singleton]
    exact Or.comm

/-! ### How resolution evolves the stores

During any resolution activity an entry of the default store either stays
exactly what it was, or (when its key's factory was invoked, an event that
the trace records) moves from `Factory` to `Instance`; symmetrically for the
specialized store.  Resolution therefore never removes entries and never
introduces an entry kind other than `Instance`. -/

/-- Evolution of one default-store key across a resolution activity. -/
def entryEvol (c c' : Container) (tr : List CKey) (k : TypeId) : Prop :=
  mapLookup c'.entries k = mapLookup c.entries k
  ∨ (CKey.dflt k ∈ tr ∧ (∃ v, mapLookup c'.entries k = some (.Instance v))
     ∧ ∃ f, mapLookup c.entries k = some (.Factory f))

/-- Evolution of one specialized-store key across a resolution activity. -/
def specEvol (c c' : Container) (tr : List CKey) (sk : SpecializedEntryKey) : Prop :=
  mapLookup c'.specialized_entries sk = mapLookup c.specialized_entries sk
  ∨ (CKey.spec sk ∈ tr
     ∧ (∃ v, mapLookup c'.specialized_entries sk = some (.Instance v))
     ∧ ∃ f, mapLookup c.specialized_entries sk = some (.SpecializedFactory f))

theorem entryEvol_rfl {c c' : Container} (tr : List CKey) (k : TypeId)
    (h : mapLookup c'.entries k = mapLookup c.entries k) : entryEvol c c' tr k :=
  Or.inl h

theorem entryEvol_trans {c c1 c2 : Container} {tr1 tr2 TR : List CKey} {k : TypeId}
    (h1 : entryEvol c c1 tr1 k) (h2 : entryEvol c1 c2 tr2 k)
    (s1 : ∀ x ∈ tr1, x ∈ TR) (s2 : ∀ x ∈ tr2, x ∈ TR) : entryEvol c c2 TR k := by
  rcases h1 with h1 | ⟨e1, ⟨v1, i1⟩, ⟨f1, g1⟩⟩
  · rcases h2 with h2 | ⟨e2, ⟨v2, i2⟩, ⟨f2, g2⟩⟩
    · exact Or.inl (h2.trans h1)
    · exact Or.inr ⟨s2 _ e2, ⟨v2, i2⟩, ⟨f2, h1 ▸ g2⟩⟩
  · rcases h2 with h2 | ⟨e2, ⟨v2, i2⟩, ⟨f2, g2⟩⟩
    · exact Or.inr ⟨s1 _ e1, ⟨v1, h2.trans i1⟩, ⟨f1, g1⟩⟩
    · rw [i1] at g2; cases g2

/-- Whether an interpreter result is a resolved value. -/
def ExecRes.isVal : ExecRes → Bool
  | .val _ => true
  | _ => false

/-- Whether an interpreter result is a resolved dependency list. -/
def ExecRes.isVals : ExecRes → Bool
  | .vals _ => true
  | _ => false

/-! ### Branch lemmas: one equation per arm of the resolution engine -/

theorem exec_dflt_none {n : Nat} {c : Container} {tid : TypeId}
    (h : mapLookup c.entries tid = none) :
    exec (n+1) (.dflt tid) c = (.err .MissingEntry, c, []) := by
  simp [exec, h]

theorem exec_dflt_inst {n : Nat} {c : Container} {tid : TypeId} {v : AnyVal}
    (h : mapLookup c.entries tid = some (.Instance v)) (ht : v.type_id = tid) :
    exec (n+1) (.dflt tid) c = (.val v, c, []) := by
  simp [exec, h, ht]

theorem exec_dflt_inst_bad {n : Nat} {c : Container} {tid : TypeId} {v : AnyVal}
    (h : mapLookup c.entries tid = some (.Instance v)) (ht : ¬ v.type_id = tid) :
    exec (n+1) (.dflt tid) c = (.panic, c, []) := by
  simp [exec, h, ht]

theorem exec_dflt_specfac {n : Nat} {c : Container} {tid : TypeId} {f : FactoryProg}
    (h : mapLookup c.entries tid = some (.SpecializedFactory f)) :
    exec (n+1) (.dflt tid) c = (.err .MissingEntry, c, []) := by
  simp [exec, h]

theorem exec_dflt_fac_ok {n : Nat} {c c1 : Container} {tid : TypeId} {f : FactoryProg}
    {v : AnyVal} {tr : List CKey}
    (h : mapLookup c.entries tid = some (.Factory f))
    (hF : exec n (.fac tid f) c = (.val v, c1, tr)) :
    exec (n+1) (.dflt tid) c =
      ((exec n (.dflt tid) { c1 with entries := mapInsert c1.entries tid (.Instance v) }).1,
       (exec n (.dflt tid) { c1 with entries := mapInsert c1.entries tid (.Instance v) }).2.1,
       .dflt tid ::
         (tr ++ (exec n (.dflt tid)
           { c1 with entries := mapInsert c1.entries tid (.Instance v) }).2.2)) := by
  simp [exec, h, hF]

theorem exec_dflt_fac_fail {n : Nat} {c c1 : Container} {tid : TypeId} {f : FactoryProg}
    {res : ExecRes} {tr : List CKey}
    (h : mapLookup c.entries tid = some (.Factory f))
    (hF : exec n (.fac tid f) c = (res, c1, tr)) (hres : res.isVal = false) :
    exec (n+1) (.dflt tid) c = (res, c1, .dflt tid :: tr) := by
  cases res <;> simp_all [exec, ExecRes.isVal]

theorem exec_spec_none {n : Nat} {c : Container} {sk : SpecializedEntryKey}
    (h : mapLookup c.specialized_entries sk = none) :
    exec (n+1) (.spec sk) c = (.err .MissingSpecializedEntry, c, []) := by
  simp [exec, h]

theorem exec_spec_inst {n : Nat} {c : Container} {sk : SpecializedEntryKey} {v : AnyVal}
    (h : mapLookup c.specialized_entries sk = some (.Instance v))
    (ht : v.type_id = sk.type_id) :
    exec (n+1) (.spec sk) c = (.val v, c, []) := by
  simp [exec, h, ht]

theorem exec_spec_inst_bad {n : Nat} {c : Container} {sk : SpecializedEntryKey}
    {v : AnyVal} (h : mapLookup c.specialized_entries sk = some (.Instance v))
    (ht : ¬ v.type_id = sk.type_id) :
    exec (n+1) (.spec sk) c = (.panic, c, []) := by
  simp [exec, h, ht]

theorem exec_spec_dfltfac {n : Nat} {c : Container} {sk : SpecializedEntryKey}
    {f : FactoryProg} (h : mapLookup c.specialized_entries sk = some (.Factory f)) :
    exec (n+1) (.spec sk) c = (.err .MissingSpecializedEntry, c, []) := by
  simp [exec, h]

theorem exec_spec_fac_ok {n : Nat} {c c1 : Container} {sk : SpecializedEntryKey}
    {f : FactoryProg} {v : AnyVal} {tr : List CKey}
    (h : mapLookup c.specialized_entries sk = some (.SpecializedFactory f))
    (hF : exec n (.fac sk.type_id f) c = (.val v, c1, tr)) :
    exec (n+1) (.spec sk) c =
      ((exec n (.spec sk) { c1 with
          specialized_entries := mapInsert c1.specialized_entries sk (.Instance v) }).1,
       (exec n (.spec sk) { c1 with
          specialized_entries := mapInsert c1.specialized_entries sk (.Instance v) }).2.1,
       .spec sk ::
         (tr ++ (exec n (.spec sk) { c1 with
            specialized_entries := mapInsert c1.specialized_entries sk
              (.Instance v) }).2.2)) := by
  simp [exec, h, hF]

theorem exec_spec_fac_fail {n : Nat} {c c1 : Container} {sk : SpecializedEntryKey}
    {f : FactoryProg} {res : ExecRes} {tr : List CKey}
    (h : mapLookup c.specialized_entries sk = some (.SpecializedFactory f))
    (hF : exec n (.fac sk.type_id f) c = (res, c1, tr)) (hres : res.isVal = false) :
    exec (n+1) (.spec sk) c = (res, c1, .spec sk :: tr) := by
  cases res <;> simp_all [exec, ExecRes.isVal]

theorem exec_deps_nil {n : Nat} {c : Container} :
    exec (n+1) (.deps []) c = (.vals [], c, []) := by
  simp [exec]

theorem exec_deps_cons_ok {n : Nat} {c c1 : Container} {d : CKey} {ds : List CKey}
    {v : AnyVal} {tr1 : List CKey}
    (hd : exec n d.toReq c = (.val v, c1, tr1)) :
    exec (n+1) (.deps (d :: ds)) c =
      (match exec n (.deps ds) c1 with
       | (.vals vs, c2, tr2) => (.vals (v :: vs), c2, tr1 ++ tr2)
       | (res, c2, tr2) => (res, c2, tr1 ++ tr2)) := by
  simp [exec, hd]

theorem exec_deps_cons_fail {n : Nat} {c c1 : Container} {d : CKey} {ds : List CKey}
    {res : ExecRes} {tr1 : List CKey}
    (hd : exec n d.toReq c = (res, c1, tr1)) (hres : res.isVal = false) :
    exec (n+1) (.deps (d :: ds)) c = (res, c1, tr1) := by
  cases res <;> simp_all [exec, ExecRes.isVal]

theorem exec_fac_ok {n : Nat} {c c1 : Container} {tid : TypeId} {f : FactoryProg}
    {vs : List AnyVal} {tr : List CKey}
    (hd : exec n (.deps f.deps) c = (.vals vs, c1, tr)) :
    exec (n+1) (.fac tid f) c =
      (match f.build vs with
       | .ok p => (.val ⟨tid, p⟩, c1, tr)
       | .error e => (.err e, c1, tr)) := by
  simp [exec, hd]

theorem exec_fac_fail {n : Nat} {c c1 : Container} {tid : TypeId} {f : FactoryProg}
    {res : ExecRes} {tr : List CKey}
    (hd : exec n (.deps f.deps) c = (res, c1, tr)) (hres : res.isVals = false) :
    exec (n+1) (.fac tid f) c = (res, c1, tr) := by
  cases res <;> simp_all [exec, ExecRes.isVals]

theorem exec_zero {req : Req} {c : Container} :
    exec 0 req c = (.outOfFuel, c, []) := rfl

/-! ### Structural invariants of resolution -/

/-- Resolution activity never touches the known-specializations sets: only the
registration calls write `Container.specializations`. -/
theorem exec_specializations :
    ∀ (fuel : Nat) (req : Req) (c : Container),
      (exec fuel req c).2.1.specializations = c.specializations := by
  intro fuel
  induction fuel with
  | zero => intro req c; rfl
  | succ n ih =>
    intro req c
    cases req with
    | dflt tid =>
      cases hl : mapLookup c.entries tid with
      | none => rw [exec_dflt_none hl]
      | some e =>
        cases e with
        | Instance v =>
          by_cases ht : v.type_id = tid
          · rw [exec_dflt_inst hl ht]
          · rw [exec_dflt_inst_bad hl ht]
        | Factory f =>
          rcases hF : exec n (.fac tid f) c with ⟨res, c1, tr⟩
          have h1 := ih (.fac tid f) c
          rw [hF] at h1
          cases res with
          | val v =>
            rw [exec_dflt_fac_ok hl hF]
            exact (ih (.dflt tid) _).trans h1
          | vals vs => rw [exec_dflt_fac_fail hl hF rfl]; exact h1
          | err e => rw [exec_dflt_fac_fail hl hF rfl]; exact h1
          | panic => rw [exec_dflt_fac_fail hl hF rfl]; exact h1
          | outOfFuel => rw [exec_dflt_fac_fail hl hF rfl]; exact h1
        | SpecializedFactory f => rw [exec_dflt_specfac hl]
    | spec sk =>
      cases hl : mapLookup c.specialized_entries sk with
      | none => rw [exec_spec_none hl]
      | some e =>
        cases e with
        | Instance v =>
          by_cases ht : v.type_id = sk.type_id
          · rw [exec_spec_inst hl ht]
          · rw [exec_spec_inst_bad hl ht]
        | SpecializedFactory f =>
          rcases hF : exec n (.fac sk.type_id f) c with ⟨res, c1, tr⟩
          have h1 := ih (.fac sk.type_id f) c
          rw [hF] at h1
          cases res with
          | val v =>
            rw [exec_spec_fac_ok hl hF]
            exact (ih (.spec sk) _).trans h1
          | vals vs => rw [exec_spec_fac_fail hl hF rfl]; exact h1
          | err e => rw [exec_spec_fac_fail hl hF rfl]; exact h1
          | panic => rw [exec_spec_fac_fail hl hF rfl]; exact h1
          | outOfFuel => rw [exec_spec_fac_fail hl hF rfl]; exact h1
        | Factory f => rw [exec_spec_dfltfac hl]
    | deps ds =>
      cases ds with
      | nil => rw [exec_deps_nil]
      | cons d rest =>
        rcases hd : exec n d.toReq c with ⟨res, c1, tr1⟩
        have h1 := ih d.toReq c
        rw [hd] at h1
        cases res with
        | val v =>
          rw [exec_deps_cons_ok hd]
          rcases hr : exec n (.deps rest) c1 with ⟨res2, c2, tr2⟩
          have h2 := ih (.deps rest) c1
          rw [hr] at h2
          cases res2 <;> exact h2.trans h1
        | vals vs => rw [exec_deps_cons_fail hd rfl]; exact h1
        | err e => rw [exec_deps_cons_fail hd rfl]; exact h1
        | panic => rw [exec_deps_cons_fail hd rfl]; exact h1
        | outOfFuel => rw [exec_deps_cons_fail hd rfl]; exact h1
    | fac tid f =>
      rcases hd : exec n (.deps f.deps) c with ⟨res, c1, tr⟩
      have h1 := ih (.deps f.deps) c
      rw [hd] at h1
      cases res with
      | vals vs =>
        rw [exec_fac_ok hd]
        cases hb : f.build vs <;> exact h1
      | val v => rw [exec_fac_fail hd rfl]; exact h1
      | err e => rw [exec_fac_fail hd rfl]; exact h1
      | panic => rw [exec_fac_fail hd rfl]; exact h1
      | outOfFuel => rw [exec_fac_fail hd rfl]; exact h1

theorem entryEvol_mono {c c' : Container} {tr tr' : List CKey} {k : TypeId}
    (h : entryEvol c c' tr k) (s : ∀ x ∈ tr, x ∈ tr') : entryEvol c c' tr' k := by
  rcases h with h | ⟨e, i, g⟩
  · exact Or.inl h
  · exact Or.inr ⟨s _ e, i, g⟩

theorem entryEvol_cast {c1 c2 c' : Container} {tr : List CKey} {k : TypeId}
    (hc : mapLookup c2.entries k = mapLookup c1.entries k)
    (h : entryEvol c2 c' tr k) : entryEvol c1 c' tr k := by
  rcases h with h | ⟨e, i, ⟨f, g⟩⟩
  · exact Or.inl (h.trans hc)
  · exact Or.inr ⟨e, i, ⟨f, hc ▸ g⟩⟩

theorem specEvol_trans {c c1 c2 : Container} {tr1 tr2 TR : List CKey}
    {sk : SpecializedEntryKey}
    (h1 : specEvol c c1 tr1 sk) (h2 : specEvol c1 c2 tr2 sk)
    (s1 : ∀ x ∈ tr1, x ∈ TR) (s2 : ∀ x ∈ tr2, x ∈ TR) : specEvol c c2 TR sk := by
  rcases h1 with h1 | ⟨e1, ⟨v1, i1⟩, ⟨f1, g1⟩⟩
  · rcases h2 with h2 | ⟨e2, ⟨v2, i2⟩, ⟨f2, g2⟩⟩
    · exact Or.inl (h2.trans h1)
    · exact Or.inr ⟨s2 _ e2, ⟨v2, i2⟩, ⟨f2, h1 ▸ g2⟩⟩
  · rcases h2 with h2 | ⟨e2, ⟨v2, i2⟩, ⟨f2, g2⟩⟩
    · exact Or.inr ⟨s1 _ e1, ⟨v1, h2.trans i1⟩, ⟨f1, g1⟩⟩
    · rw [i1] at g2; cases g2

theorem specEvol_mono {c c' : Container} {tr tr' : List CKey} {sk : SpecializedEntryKey}
    (h : specEvol c c' tr sk) (s : ∀ x ∈ tr, x ∈ tr') : specEvol c c' tr' sk := by
  rcases h with h | ⟨e, i, g⟩
  · exact Or.inl h
  · exact Or.inr ⟨s _ e, i, g⟩

theorem specEvol_cast {c1 c2 c' : Container} {tr : List CKey} {sk : SpecializedEntryKey}
    (hc : mapLookup c2.specialized_entries sk = mapLookup c1.specialized_entries sk)
    (h : specEvol c2 c' tr sk) : specEvol c1 c' tr sk := by
  rcases h with h | ⟨e, i, ⟨f, g⟩⟩
  · exact Or.inl (h.trans hc)
  · exact Or.inr ⟨e, i, ⟨f, hc ▸ g⟩⟩

/-- Any resolution activity evolves each default-store key according to
`entryEvol`: the entry is unchanged, or the key's factory was invoked (the
trace records it) and the `Factory` entry became an `Instance` entry.  In
particular resolution never removes a default entry and never stores
anything but an `Instance` over an existing entry. -/
theorem exec_entryEvol :
    ∀ (fuel : Nat) (req : Req) (c : Container) (k : TypeId),
      entryEvol c (exec fuel req c).2.1 (exec fuel req c).2.2 k := by
  intro fuel
  induction fuel with
  | zero => intro req c k; exact Or.inl rfl
  | succ n ih =>
    intro req c k
    cases req with
    | dflt tid =>
      cases hl : mapLookup c.entries tid with
      | none => rw [exec_dflt_none hl]; exact Or.inl rfl
      | some e =>
        cases e with
        | Instance v =>
          by_cases ht : v.type_id = tid
          · rw [exec_dflt_inst hl ht]; exact Or.inl rfl
          · rw [exec_dflt_inst_bad hl ht]; exact Or.inl rfl
        | Factory f =>
          rcases hF : exec n (.fac tid f) c with ⟨res, c1, tr⟩
          have h1 := ih (.fac tid f) c k
          rw [hF] at h1
          cases res with
          | val v =>
            rw [exec_dflt_fac_ok hl hF]
            by_cases hk : k = tid
            · subst hk
              have h2 := ih (.dflt k)
                { c1 with entries := mapInsert c1.entries k (.Instance v) } k
              rcases h2 with h2 | ⟨_, _, ⟨f', g'⟩⟩
              · refine Or.inr ⟨List.mem_cons_self _ _, ⟨v, ?_⟩, ⟨f, hl⟩⟩
                rw [h2]
                exact mapLookup_insert_self _ _ _
              · rw [mapLookup_insert_self] at g'; cases g'
            · have hc2 : mapLookup
                  { c1 with entries := mapInsert c1.entries tid (.Instance v) }.entries k
                  = mapLookup c1.entries k := mapLookup_insert_ne _ _ _ _ hk
              have h2 := entryEvol_cast hc2 (ih (.dflt tid)
                { c1 with entries := mapInsert c1.entries tid (.Instance v) } k)
              refine entryEvol_trans h1 h2 ?_ ?_
              · intro x hx
                exact List.mem_cons_of_mem _ (List.mem_append_left _ hx)
              · intro x hx
                exact List.mem_cons_of_mem _ (List.mem_append_right _ hx)
          | vals vs =>
            rw [exec_dflt_fac_fail hl hF rfl]
            exact entryEvol_mono h1 (fun x hx => List.mem_cons_of_mem _ hx)
          | err e =>
            rw [exec_dflt_fac_fail hl hF rfl]
            exact entryEvol_mono h1 (fun x hx => List.mem_cons_of_mem _ hx)
          | panic =>
            rw [exec_dflt_fac_fail hl hF rfl]
            exact entryEvol_mono h1 (fun x hx => List.mem_cons_of_mem _ hx)
          | outOfFuel =>
            rw [exec_dflt_fac_fail hl hF rfl]
            exact entryEvol_mono h1 (fun x hx => List.mem_cons_of_mem _ hx)
        | SpecializedFactory f =>
          rw [exec_dflt_specfac hl]; exact Or.inl rfl
    | spec sk =>
      cases hl : mapLookup c.specialized_entries sk with
      | none => rw [exec_spec_none hl]; exact Or.inl rfl
      | some e =>
        cases e with
        | Instance v =>
          by_cases ht : v.type_id = sk.type_id
          · rw [exec_spec_inst hl ht]; exact Or.inl rfl
          · rw [exec_spec_inst_bad hl ht]; exact Or.inl rfl
        | SpecializedFactory f =>
          rcases hF : exec n (.fac sk.type_id f) c with ⟨res, c1, tr⟩
          have h1 := ih (.fac sk.type_id f) c k
          rw [hF] at h1
          cases res with
          | val v =>
            rw [exec_spec_fac_ok hl hF]
            have hc2 : mapLookup
                { c1 with specialized_entries :=
                    mapInsert c1.specialized_entries sk (.Instance v) }.entries k
                = mapLookup c1.entries k := rfl
            have h2 := entryEvol_cast hc2 (ih (.spec sk)
              { c1 with specialized_entries :=
                  mapInsert c1.specialized_entries sk (.Instance v) } k)
            refine entryEvol_trans h1 h2 ?_ ?_
            · intro x hx
              exact List.mem_cons_of_mem _ (List.mem_append_left _ hx)
            · intro x hx
              exact List.mem_cons_of_mem _ (List.mem_append_right _ hx)
          | vals vs =>
            rw [exec_spec_fac_fail hl hF rfl]
            exact entryEvol_mono h1 (fun x hx => List.mem_cons_of_mem _ hx)
          | err e =>
            rw [exec_spec_fac_fail hl hF rfl]
            exact entryEvol_mono h1 (fun x hx => List.mem_cons_of_mem _ hx)
          | panic =>
            rw [exec_spec_fac_fail hl hF rfl]
            exact entryEvol_mono h1 (fun x hx => List.mem_cons_of_mem _ hx)
          | outOfFuel =>
            rw [exec_spec_fac_fail hl hF rfl]
            exact entryEvol_mono h1 (fun x hx => List.mem_cons_of_mem _ hx)
        | Factory f =>
          rw [exec_spec_dfltfac hl]; exact Or.inl rfl
    | deps ds =>
      cases ds with
      | nil => rw [exec_deps_nil]; exact Or.inl rfl
      | cons d rest =>
        rcases hd : exec n d.toReq c with ⟨res, c1, tr1⟩
        have h1 := ih d.toReq c k
        rw [hd] at h1
        cases res with
        | val v =>
          rw [exec_deps_cons_ok hd]
          rcases hr : exec n (.deps rest) c1 with ⟨res2, c2, tr2⟩
          have h2 := ih (.deps rest) c1 k
          rw [hr] at h2
          have comp := @entryEvol_trans c c1 c2 tr1 tr2 (tr1 ++ tr2) k h1 h2
            (fun x hx => List.mem_append_left _ hx)
            (fun x hx => List.mem_append_right _ hx)
          cases res2 <;> exact comp
        | vals vs => rw [exec_deps_cons_fail hd rfl]; exact h1
        | err e => rw [exec_deps_cons_fail hd rfl]; exact h1
        | panic => rw [exec_deps_cons_fail hd rfl]; exact h1
        | outOfFuel => rw [exec_deps_cons_fail hd rfl]; exact h1
    | fac tid f =>
      rcases hdp : exec n (.deps f.deps) c with ⟨res, c1, tr⟩
      have h1 := ih (.deps f.deps) c k
      rw [hdp] at h1
      cases res with
      | vals vs =>
        rw [exec_fac_ok hdp]
        cases hb : f.build vs <;> exact h1
      | val v => rw [exec_fac_fail hdp rfl]; exact h1
      | err e => rw [exec_fac_fail hdp rfl]; exact h1
      | panic => rw [exec_fac_fail hdp rfl]; exact h1
      | outOfFuel => rw [exec_fac_fail hdp rfl]; exact h1

/-- Any resolution activity evolves each specialized-store key according to
`specEvol`: unchanged, or the specialized factory was invoked (recorded in
the trace) and the `SpecializedFactory` entry became an `Instance` entry. -/
theorem exec_specEvol :
    ∀ (fuel : Nat) (req : Req) (c : Container) (sk : SpecializedEntryKey),
      specEvol c (exec fuel req c).2.1 (exec fuel req c).2.2 sk := by
  intro fuel
  induction fuel with
  | zero => intro req c sk; exact Or.inl rfl
  | succ n ih =>
    intro req c sk
    cases req with
    | dflt tid =>
      cases hl : mapLookup c.entries tid with
      | none => rw [exec_dflt_none hl]; exact Or.inl rfl
      | some e =>
        cases e with
        | Instance v =>
          by_cases ht : v.type_id = tid
          · rw [exec_dflt_inst hl ht]; exact Or.inl rfl
          · rw [exec_dflt_inst_bad hl ht]; exact Or.inl rfl
        | Factory f =>
          rcases hF : exec n (.fac tid f) c with ⟨res, c1, tr⟩
          have h1 := ih (.fac tid f) c sk
          rw [hF] at h1
          cases res with
          | val v =>
            rw [exec_dflt_fac_ok hl hF]
            have hc2 : mapLookup
                { c1 with entries :=
                    mapInsert c1.entries tid (.Instance v) }.specialized_entries sk
                = mapLookup c1.specialized_entries sk := rfl
            have h2 := specEvol_cast hc2 (ih (.dflt tid)
              { c1 with entries := mapInsert c1.entries tid (.Instance v) } sk)
            refine specEvol_trans h1 h2 ?_ ?_
            · intro x hx
              exact List.mem_cons_of_mem _ (List.mem_append_left _ hx)
            · intro x hx
              exact List.mem_cons_of_mem _ (List.mem_append_right _ hx)
          | vals vs =>
            rw [exec_dflt_fac_fail hl hF rfl]
            exact specEvol_mono h1 (fun x hx => List.mem_cons_of_mem _ hx)
          | err e =>
            rw [exec_dflt_fac_fail hl hF rfl]
            exact specEvol_mono h1 (fun x hx => List.mem_cons_of_mem _ hx)
          | panic =>
            rw [exec_dflt_fac_fail hl hF rfl]
            exact specEvol_mono h1 (fun x hx => List.mem_cons_of_mem _ hx)
          | outOfFuel =>
            rw [exec_dflt_fac_fail hl hF rfl]
            exact specEvol_mono h1 (fun x hx => List.mem_cons_of_mem _ hx)
        | SpecializedFactory f =>
          rw [exec_dflt_specfac hl]; exact Or.inl rfl
    | spec sk0 =>
      cases hl : mapLookup c.specialized_entries sk0 with
      | none => rw [exec_spec_none hl]; exact Or.inl rfl
      | some e =>
        cases e with
        | Instance v =>
          by_cases ht : v.type_id = sk0.type_id
          · rw [exec_spec_inst hl ht]; exact Or.inl rfl
          · rw [exec_spec_inst_bad hl ht]; exact Or.inl rfl
        | SpecializedFactory f =>
          rcases hF : exec n (.fac sk0.type_id f) c with ⟨res, c1, tr⟩
          have h1 := ih (.fac sk0.type_id f) c sk
          rw [hF] at h1
          cases res with
          | val v =>
            rw [exec_spec_fac_ok hl hF]
            by_cases hk : sk = sk0
            · subst hk
              have h2 := ih (.spec sk)
                { c1 with specialized_entries :=
                    mapInsert c1.specialized_entries sk (.Instance v) } sk
              rcases h2 with h2 | ⟨_, _, ⟨f', g'⟩⟩
              · refine Or.inr ⟨List.mem_cons_self _ _, ⟨v, ?_⟩, ⟨f, hl⟩⟩
                rw [h2]
                exact mapLookup_insert_self _ _ _
              · rw [mapLookup_insert_self] at g'; cases g'
            · have hc2 : mapLookup
                  { c1 with specialized_entries :=
                      mapInsert c1.specialized_entries sk0 (.Instance v) }.specialized_entries sk
                  = mapLookup c1.specialized_entries sk :=
                mapLookup_insert_ne _ _ _ _ hk
              have h2 := specEvol_cast hc2 (ih (.spec sk0)
                { c1 with specialized_entries :=
                    mapInsert c1.specialized_entries sk0 (.Instance v) } sk)
              refine specEvol_trans h1 h2 ?_ ?_
              · intro x hx
                exact List.mem_cons_of_mem _ (List.mem_append_left _ hx)
              · intro x hx
                exact List.mem_cons_of_mem _ (List.mem_append_right _ hx)
          | vals vs =>
            rw [exec_spec_fac_fail hl hF rfl]
            exact specEvol_mono h1 (fun x hx => List.mem_cons_of_mem _ hx)
          | err e =>
            rw [exec_spec_fac_fail hl hF rfl]
            exact specEvol_mono h1 (fun x hx => List.mem_cons_of_mem _ hx)
          | panic =>
            rw [exec_spec_fac_fail hl hF rfl]
            exact specEvol_mono h1 (fun x hx => List.mem_cons_of_mem _ hx)
          | outOfFuel =>
            rw [exec_spec_fac_fail hl hF rfl]
            exact specEvol_mono h1 (fun x hx => List.mem_cons_of_mem _ hx)
        | Factory f =>
          rw [exec_spec_dfltfac hl]; exact Or.inl rfl
    | deps ds =>
      cases ds with
      | nil => rw [exec_deps_nil]; exact Or.inl rfl
      | cons d rest =>
        rcases hd : exec n d.toReq c with ⟨res, c1, tr1⟩
        have h1 := ih d.toReq c sk
        rw [hd] at h1
        cases res with
        | val v =>
          rw [exec_deps_cons_ok hd]
          rcases hr : exec n (.deps rest) c1 with ⟨res2, c2, tr2⟩
          have h2 := ih (.deps rest) c1 sk
          rw [hr] at h2
          have comp := @specEvol_trans c c1 c2 tr1 tr2 (tr1 ++ tr2) sk h1 h2
            (fun x hx => List.mem_append_left _ hx)
            (fun x hx => List.mem_append_right _ hx)
          cases res2 <;> exact comp
        | vals vs => rw [exec_deps_cons_fail hd rfl]; exact h1
        | err e => rw [exec_deps_cons_fail hd rfl]; exact h1
        | panic => rw [exec_deps_cons_fail hd rfl]; exact h1
        | outOfFuel => rw [exec_deps_cons_fail hd rfl]; exact h1
    | fac tid f =>
      rcases hdp : exec n (.deps f.deps) c with ⟨res, c1, tr⟩
      have h1 := ih (.deps f.deps) c sk
      rw [hdp] at h1
      cases res with
      | vals vs =>
        rw [exec_fac_ok hdp]
        cases hb : f.build vs <;> exact h1
      | val v => rw [exec_fac_fail hdp rfl]; exact h1
      | err e => rw [exec_fac_fail hdp rfl]; exact h1
      | panic => rw [exec_fac_fail hdp rfl]; exact h1
      | outOfFuel => rw [exec_fac_fail hdp rfl]; exact h1

/-- A successful default resolution leaves an `Instance` entry holding exactly
the returned value (correctly tagged) under the resolved key: either the entry
already was that `Instance`, or the factory's product was memoized. -/
theorem default_val_lookup :
    ∀ (fuel : Nat) (c : Container) (tid : TypeId) (v : AnyVal),
      (exec fuel (.dflt tid) c).1 = .val v →
      mapLookup (exec fuel (.dflt tid) c).2.1.entries tid = some (.Instance v)
        ∧ v.type_id = tid := by
  intro fuel
  induction fuel with
  | zero => intro c tid v h; cases h
  | succ n ih =>
    intro c tid v h
    cases hl : mapLookup c.entries tid with
    | none => rw [exec_dflt_none hl] at h ⊢; cases h
    | some e =>
      cases e with
      | Instance w =>
        by_cases ht : w.type_id = tid
        · rw [exec_dflt_inst hl ht] at h ⊢
          cases h
          exact ⟨hl, ht⟩
        · rw [exec_dflt_inst_bad hl ht] at h; cases h
      | Factory f =>
        rcases hF : exec n (.fac tid f) c with ⟨res, c1, tr⟩
        cases res with
        | val w =>
          rw [exec_dflt_fac_ok hl hF] at h ⊢
          exact ih _ tid v h
        | vals vs => rw [exec_dflt_fac_fail hl hF rfl] at h; cases h
        | err e => rw [exec_dflt_fac_fail hl hF rfl] at h; cases h
        | panic => rw [exec_dflt_fac_fail hl hF rfl] at h; cases h
        | outOfFuel => rw [exec_dflt_fac_fail hl hF rfl] at h; cases h
      | SpecializedFactory f => rw [exec_dflt_specfac hl] at h; cases h

/-- A successful specialized resolution leaves an `Instance` entry holding
exactly the returned value (correctly tagged) under the resolved specialized
key: either the entry already was that `Instance`, or the specialized
factory's product was memoized. -/
theorem spec_val_lookup :
    ∀ (fuel : Nat) (c : Container) (sk : SpecializedEntryKey) (v : AnyVal),
      (exec fuel (.spec sk) c).1 = .val v →
      mapLookup (exec fuel (.spec sk) c).2.1.specialized_entries sk
        = some (.Instance v) ∧ v.type_id = sk.type_id := by
  intro fuel
  induction fuel with
  | zero => intro c sk v h; cases h
  | succ n ih =>
    intro c sk v h
    cases hl : mapLookup c.specialized_entries sk with
    | none => rw [exec_spec_none hl] at h ⊢; cases h
    | some e =>
      cases e with
      | Instance w =>
        by_cases ht : w.type_id = sk.type_id
        · rw [exec_spec_inst hl ht] at h ⊢
          cases h
          exact ⟨hl, ht⟩
        · rw [exec_spec_inst_bad hl ht] at h; cases h
      | Factory f => rw [exec_spec_dfltfac hl] at h; cases h
      | SpecializedFactory f =>
        rcases hF : exec n (.fac sk.type_id f) c with ⟨res, c1, tr⟩
        cases res with
        | val w =>
          rw [exec_spec_fac_ok hl hF] at h ⊢
          exact ih _ sk v h
        | vals vs => rw [exec_spec_fac_fail hl hF rfl] at h; cases h
        | err e => rw [exec_spec_fac_fail hl hF rfl] at h; cases h
        | panic => rw [exec_spec_fac_fail hl hF rfl] at h; cases h
        | outOfFuel => rw [exec_spec_fac_fail hl hF rfl] at h; cases h

/-- Whether a `ContainerError` is the `FactoryError` variant. -/
def ContainerError.isFactoryError : ContainerError → Bool
  | .FactoryError _ => true
  | _ => false

/-- When the resolved key holds a `Factory` entry, the resolution trace begins
with that key's invocation event: the factory is invoked before anything else
can happen, whatever the outcome. -/
theorem default_factory_trace_head (n : Nat) (c : Container) (tid : TypeId)
    (f : FactoryProg) (hf : mapLookup c.entries tid = some (.Factory f)) :
    (c.default (n+1) tid).2.2.head? = some (.dflt tid) := by
  show (exec (n+1) (.dflt tid) c).2.2.head? = some (.dflt tid)
  rcases hF : exec n (.fac tid f) c with ⟨res, c1, tr⟩
  cases res with
  | val v => rw [exec_dflt_fac_ok hf hF]; rfl
  | vals vs => rw [exec_dflt_fac_fail hf hF rfl]; rfl
  | err e => rw [exec_dflt_fac_fail hf hF rfl]; rfl
  | panic => rw [exec_dflt_fac_fail hf hF rfl]; rfl
  | outOfFuel => rw [exec_dflt_fac_fail hf hF rfl]; rfl

/-- When the resolved specialized key holds a `SpecializedFactory` entry, the
resolution trace begins with that key's invocation event, whatever the
outcome. -/
theorem spec_factory_trace_head (n : Nat) (c : Container)
    (sk : SpecializedEntryKey) (f : FactoryProg)
    (hf : mapLookup c.specialized_entries sk = some (.SpecializedFactory f)) :
    (exec (n+1) (.spec sk) c).2.2.head? = some (.spec sk) := by
  rcases hF : exec n (.fac sk.type_id f) c with ⟨res, c1, tr⟩
  cases res with
  | val v => rw [exec_spec_fac_ok hf hF]; rfl
  | vals vs => rw [exec_spec_fac_fail hf hF rfl]; rfl
  | err e => rw [exec_spec_fac_fail hf hF rfl]; rfl
  | panic => rw [exec_spec_fac_fail hf hF rfl]; rfl
  | outOfFuel => rw [exec_spec_fac_fail hf hF rfl]; rfl

/-! ### Claim C2 -/

/-- C2: for every type whose entry has been memoized as an `Instance`, any two
successful resolutions return handles to the same underlying object.  Both
resolutions return exactly the stored `AnyVal` (whose equality models `Arc`
pointer identity: the source clones the shared handle, so equal handles
reference the identical allocation), and the first resolution leaves the
container unchanged, so the second sees the same entry. -/
theorem C2_shared_instance_identity (c : Container) (tid : TypeId) (v : AnyVal)
    (h : mapLookup c.entries tid = some (.Instance v)) (n1 n2 : Nat)
    (w1 w2 : AnyVal)
    (h1 : (c.default (n1+1) tid).1 = .val w1)
    (h2 : ((c.default (n1+1) tid).2.1.default (n2+1) tid).1 = .val w2) :
    w1 = v ∧ w2 = v ∧ (c.default (n1+1) tid).2.1 = c := by
  by_cases ht : v.type_id = tid
  · have e1 : c.default (n1+1) tid = (.val v, c, []) := exec_dflt_inst h ht
    rw [e1] at h1 h2
    have e2 : c.default (n2+1) tid = (.val v, c, []) := exec_dflt_inst h ht
    rw [show ((ExecRes.val v, c, ([] : List CKey))).2.1 = c from rfl] at h2
    rw [show (Container.default (n2+1) c tid) = (.val v, c, []) from e2] at h2
    cases h1
    cases h2
    exact ⟨rfl, rfl, by rw [e1]⟩
  · have e1 : c.default (n1+1) tid = (.panic, c, []) := exec_dflt_inst_bad h ht
    rw [e1] at h1
    cases h1

/-- Witness for C2 at a concrete container. -/
theorem C2_witness :
    (⟨5, (42 : Int)⟩ : AnyVal) = ⟨5, 42⟩ ∧ (⟨5, (42 : Int)⟩ : AnyVal) = ⟨5, 42⟩ ∧
      ((Container.new.register_instance 5 42).default 1 5).2.1
        = Container.new.register_instance 5 42 :=
  C2_shared_instance_identity (Container.new.register_instance 5 42) 5 ⟨5, 42⟩ rfl
    0 0 ⟨5, 42⟩ ⟨5, 42⟩ rfl rfl

/-! ### Claim C8 -/

/-- C8: resolving a default key with no entry, or whose entry is the
wrong kind for the default path (a `SpecializedFactory`), returns
`MissingEntry`; resolving a specialized key with no entry, or whose entry is
the wrong kind for the specialized path (a default `Factory`), returns
`MissingSpecializedEntry`.  In each case the container is unchanged. -/
theorem C8_missing_entry_errors (n : Nat) (c : Container) (tid sid : TypeId)
    (sval : Int) (f g : FactoryProg) :
    (mapLookup c.entries tid = none →
      c.default (n+1) tid = (.err .MissingEntry, c, []))
    ∧ (mapLookup c.entries tid = some (.SpecializedFactory f) →
      c.default (n+1) tid = (.err .MissingEntry, c, []))
    ∧ (mapLookup c.specialized_entries ⟨tid, sid, sval⟩ = none →
      Container.specialized (n+1) c tid sid sval
        = (.err .MissingSpecializedEntry, c, []))
    ∧ (mapLookup c.specialized_entries ⟨tid, sid, sval⟩ = some (.Factory g) →
      Container.specialized (n+1) c tid sid sval
        = (.err .MissingSpecializedEntry, c, [])) :=
  ⟨fun h => exec_dflt_none h, fun h => exec_dflt_specfac h,
   fun h => exec_spec_none h, fun h => exec_spec_dfltfac h⟩

/-- Witness for C8: the empty container misses both kinds of key. -/
theorem C8_witness :
    Container.new.default 1 0 = (.err .MissingEntry, Container.new, [])
    ∧ Container.specialized 1 Container.new 0 1 2
      = (.err .MissingSpecializedEntry, Container.new, []) :=
  ⟨(C8_missing_entry_errors 0 Container.new 0 1 2 ⟨[], fun _ => .ok 0⟩
      ⟨[], fun _ => .ok 0⟩).1 rfl,
   (C8_missing_entry_errors 0 Container.new 0 1 2 ⟨[], fun _ => .ok 0⟩
      ⟨[], fun _ => .ok 0⟩).2.2.1 rfl⟩

/-! ### Claim C1 -/

/-- Counterexample to C1: a factory that fails with
`MissingSpecializedEntry` makes `resolve_default` return exactly
`MissingSpecializedEntry` — not a `FactoryError` wrapping it.  The source's
`Err(err) => Err(err)` arms (src/lib.rs lines 216 and 266) forward the
factory's `ContainerError` as is; no `ContainerError::FactoryError` value is
constructed anywhere in the library. -/
theorem C1_counterexample :
    ((Container.new.register_factory 0
        ⟨[], fun _ => .error .MissingSpecializedEntry⟩).default 3 0).1
      = .err .MissingSpecializedEntry
    ∧ ContainerError.MissingSpecializedEntry.isFactoryError = false :=
  ⟨rfl, rfl⟩

/-- C1 as amended, for both resolution paths: when a factory invoked during
`resolve_default` fails, and likewise when a specialized factory invoked
during `resolve_specialized` fails, the resolution call returns the factory's
error value unchanged (so the result is a `FactoryError` only when the
factory itself returned one), and the state and trace are those of the failed
invocation. -/
theorem C1_factory_error_propagated (n m : Nat) (c c1 cS cS1 : Container)
    (tid : TypeId) (sk : SpecializedEntryKey) (f g : FactoryProg)
    (e eS : ContainerError) (tr trS : List CKey) :
    (mapLookup c.entries tid = some (.Factory f) →
      exec n (.fac tid f) c = (.err e, c1, tr) →
      c.default (n+1) tid = (.err e, c1, .dflt tid :: tr))
    ∧ (mapLookup cS.specialized_entries sk = some (.SpecializedFactory g) →
      exec m (.fac sk.type_id g) cS = (.err eS, cS1, trS) →
      Container.specialized (m+1) cS sk.type_id sk.specialization_type_id
        sk.specialization_value = (.err eS, cS1, .spec sk :: trS)) :=
  ⟨fun hf hF => exec_dflt_fac_fail hf hF rfl,
   fun hg hG => exec_spec_fac_fail hg hG rfl⟩

/-- Witness for C1's amended theorem: a default factory failing with a
self-made `FactoryError` token and a specialized factory failing with another
both propagate their errors unchanged. -/
theorem C1_witness :
    (Container.new.register_factory 0
        ⟨[], fun _ => .error (.FactoryError 7)⟩).default 3 0
      = (.err (.FactoryError 7),
         Container.new.register_factory 0 ⟨[], fun _ => .error (.FactoryError 7)⟩,
         [.dflt 0])
    ∧ Container.specialized 3
        (Container.new.register_specialized_factory 0 1 2
          ⟨[], fun _ => .error (.FactoryError 8)⟩) 0 1 2
      = (.err (.FactoryError 8),
         Container.new.register_specialized_factory 0 1 2
           ⟨[], fun _ => .error (.FactoryError 8)⟩,
         [.spec ⟨0, 1, 2⟩]) :=
  ⟨(C1_factory_error_propagated 2 2
      (Container.new.register_factory 0 ⟨[], fun _ => .error (.FactoryError 7)⟩)
      (Container.new.register_factory 0 ⟨[], fun _ => .error (.FactoryError 7)⟩)
      (Container.new.register_specialized_factory 0 1 2
        ⟨[], fun _ => .error (.FactoryError 8)⟩)
      (Container.new.register_specialized_factory 0 1 2
        ⟨[], fun _ => .error (.FactoryError 8)⟩)
      0 ⟨0, 1, 2⟩ ⟨[], fun _ => .error (.FactoryError 7)⟩
      ⟨[], fun _ => .error (.FactoryError 8)⟩ (.FactoryError 7) (.FactoryError 8)
      [] []).1 rfl rfl,
   (C1_factory_error_propagated 2 2
      (Container.new.register_factory 0 ⟨[], fun _ => .error (.FactoryError 7)⟩)
      (Container.new.register_factory 0 ⟨[], fun _ => .error (.FactoryError 7)⟩)
      (Container.new.register_specialized_factory 0 1 2
        ⟨[], fun _ => .error (.FactoryError 8)⟩)
      (Container.new.register_specialized_factory 0 1 2
        ⟨[], fun _ => .error (.FactoryError 8)⟩)
      0 ⟨0, 1, 2⟩ ⟨[], fun _ => .error (.FactoryError 7)⟩
      ⟨[], fun _ => .error (.FactoryError 8)⟩ (.FactoryError 7) (.FactoryError 8)
      [] []).2 rfl rfl⟩

/-! ### Claim C4 -/

/-- Counterexample to C4's "the container's entry stores are left unchanged":
a factory for key `0` that first re-entrantly resolves the factory-backed key
`1` and then fails leaves the store changed — key `1` has been memoized from
`Factory` to `Instance` — even though the resolution call failed (and key `0`
itself did keep its `Factory` entry). -/
theorem C4_counterexample :
    (((Container.new.register_factory 1 ⟨[], fun _ => .ok 5⟩).register_factory 0
        ⟨[.dflt 1], fun _ => .error (.FactoryError 9)⟩).default 8 0).1
      = .err (.FactoryError 9)
    ∧ (mapLookup (((Container.new.register_factory 1
          ⟨[], fun _ => .ok 5⟩).register_factory 0
          ⟨[.dflt 1], fun _ => .error (.FactoryError 9)⟩).default 8 0).2.1.entries
          1).map ContainerEntry.isInst = some true
    ∧ (mapLookup ((Container.new.register_factory 1
          ⟨[], fun _ => .ok 5⟩).register_factory 0
          ⟨[.dflt 1], fun _ => .error (.FactoryError 9)⟩).entries
          1).map ContainerEntry.isInst = some false :=
  ⟨by decide, by decide, by decide⟩

/-- C4 as amended, for both resolution paths: if the factory's invocation
during resolution fails and the factory did not re-trigger its own key (the
spec's §5 contract: the resolution trace carries at most the one direct
invocation of this key), the entry for the failing key — default or
specialized — is left unchanged: the original `Factory` resp.
`SpecializedFactory` entry remains, so a subsequent resolution of the same
key invokes the factory again (its trace again starts with this key's
invocation event).  Entries under other keys may have changed through the
factory's own re-entrant resolutions. -/
theorem C4_failed_factory_not_memoized (n m : Nat) (c cS : Container)
    (tid tid2 sid2 : TypeId) (sval2 : Int) (f g : FactoryProg)
    (e eS : ContainerError) :
    (mapLookup c.entries tid = some (.Factory f) →
      (c.default (n+1) tid).1 = .err e →
      (c.default (n+1) tid).2.2.count (CKey.dflt tid) ≤ 1 →
      mapLookup (c.default (n+1) tid).2.1.entries tid = some (.Factory f)
      ∧ ∀ k, ((c.default (n+1) tid).2.1.default (k+1) tid).2.2.head?
          = some (.dflt tid))
    ∧ (mapLookup cS.specialized_entries ⟨tid2, sid2, sval2⟩
        = some (.SpecializedFactory g) →
      (Container.specialized (m+1) cS tid2 sid2 sval2).1 = .err eS →
      (Container.specialized (m+1) cS tid2 sid2 sval2).2.2.count
        (CKey.spec ⟨tid2, sid2, sval2⟩) ≤ 1 →
      mapLookup (Container.specialized (m+1) cS tid2 sid2
          sval2).2.1.specialized_entries ⟨tid2, sid2, sval2⟩
        = some (.SpecializedFactory g)
      ∧ ∀ k, (Container.specialized (k+1)
          (Container.specialized (m+1) cS tid2 sid2 sval2).2.1 tid2 sid2
          sval2).2.2.head? = some (.spec ⟨tid2, sid2, sval2⟩)) := by
  constructor
  · intro hf herr hsafe
    rcases hF : exec n (.fac tid f) c with ⟨res, c1, tr⟩
    cases res with
    | val v =>
      exfalso
      have he := exec_dflt_fac_ok hf hF
      rw [show Container.default (n+1) c tid = exec (n+1) (.dflt tid) c from rfl,
        he] at herr
      have h1 : (exec n (.dflt tid)
          { c1 with entries := mapInsert c1.entries tid (.Instance v) }).1
          = .err e := herr
      cases n with
      | zero => rw [exec_zero] at h1; cases h1
      | succ k =>
        by_cases ht : v.type_id = tid
        · rw [exec_dflt_inst (mapLookup_insert_self _ _ _) ht] at h1; cases h1
        · rw [exec_dflt_inst_bad (mapLookup_insert_self _ _ _) ht] at h1; cases h1
    | vals vs =>
      have he := exec_dflt_fac_fail hf hF rfl
      rw [show Container.default (n+1) c tid = exec (n+1) (.dflt tid) c from rfl,
        he] at herr
      cases herr
    | err e2 =>
      have he := exec_dflt_fac_fail hf hF rfl
      have hD : Container.default (n+1) c tid = exec (n+1) (.dflt tid) c := rfl
      rw [hD, he] at herr hsafe ⊢
      have htr : tr.count (CKey.dflt tid) = 0 := by
        have h2 : (CKey.dflt tid :: tr).count (CKey.dflt tid) ≤ 1 := hsafe
        rw [List.count_cons_self] at h2
        omega
      have hev := exec_entryEvol n (.fac tid f) c tid
      rw [hF] at hev
      have hunch : mapLookup c1.entries tid = mapLookup c.entries tid := by
        rcases hev with hev | ⟨hmem, _, _⟩
        · exact hev
        · exfalso
          have hmem2 : CKey.dflt tid ∈ tr := hmem
          have := List.count_pos_iff.mpr hmem2
          omega
      refine ⟨hunch.trans hf, ?_⟩
      intro k
      exact default_factory_trace_head k c1 tid f (hunch.trans hf)
    | panic =>
      have he := exec_dflt_fac_fail hf hF rfl
      rw [show Container.default (n+1) c tid = exec (n+1) (.dflt tid) c from rfl,
        he] at herr
      cases herr
    | outOfFuel =>
      have he := exec_dflt_fac_fail hf hF rfl
      rw [show Container.default (n+1) c tid = exec (n+1) (.dflt tid) c from rfl,
        he] at herr
      cases herr
  · intro hg herr hsafe
    rcases hG : exec m (.fac tid2 g) cS with ⟨res, cS1, trS⟩
    cases res with
    | val v =>
      exfalso
      have he := exec_spec_fac_ok hg hG
      rw [show Container.specialized (m+1) cS tid2 sid2 sval2
        = exec (m+1) (.spec ⟨tid2, sid2, sval2⟩) cS from rfl, he] at herr
      have h1 : (exec m (.spec ⟨tid2, sid2, sval2⟩)
          { cS1 with specialized_entries := mapInsert cS1.specialized_entries ⟨tid2, sid2, sval2⟩ (.Instance v) }).1
          = .err eS := herr
      cases m with
      | zero => rw [exec_zero] at h1; cases h1
      | succ k =>
        by_cases ht : v.type_id = tid2
        · rw [exec_spec_inst (mapLookup_insert_self _ _ _) ht] at h1; cases h1
        · rw [exec_spec_inst_bad (mapLookup_insert_self _ _ _) ht] at h1; cases h1
    | vals vs =>
      have he := exec_spec_fac_fail hg hG rfl
      rw [show Container.specialized (m+1) cS tid2 sid2 sval2
        = exec (m+1) (.spec ⟨tid2, sid2, sval2⟩) cS from rfl, he] at herr
      cases herr
    | err e2 =>
      have he := exec_spec_fac_fail hg hG rfl
      have hD : Container.specialized (m+1) cS tid2 sid2 sval2
        = exec (m+1) (.spec ⟨tid2, sid2, sval2⟩) cS := rfl
      rw [hD, he] at herr hsafe ⊢
      have htr : trS.count (CKey.spec ⟨tid2, sid2, sval2⟩) = 0 := by
        have h2 : (CKey.spec ⟨tid2, sid2, sval2⟩ :: trS).count
          (CKey.spec ⟨tid2, sid2, sval2⟩) ≤ 1 := hsafe
        rw [List.count_cons_self] at h2
        omega
      have hev := exec_specEvol m (.fac tid2 g) cS ⟨tid2, sid2, sval2⟩
      rw [hG] at hev
      have hunch : mapLookup cS1.specialized_entries ⟨tid2, sid2, sval2⟩
          = mapLookup cS.specialized_entries ⟨tid2, sid2, sval2⟩ := by
        rcases hev with hev | ⟨hmem, _, _⟩
        · exact hev
        · exfalso
          have hmem2 : CKey.spec ⟨tid2, sid2, sval2⟩ ∈ trS := hmem
          have := List.count_pos_iff.mpr hmem2
          omega
      refine ⟨hunch.trans hg, ?_⟩
      intro k
      exact spec_factory_trace_head k cS1 ⟨tid2, sid2, sval2⟩ g (hunch.trans hg)
    | panic =>
      have he := exec_spec_fac_fail hg hG rfl
      rw [show Container.specialized (m+1) cS tid2 sid2 sval2
        = exec (m+1) (.spec ⟨tid2, sid2, sval2⟩) cS from rfl, he] at herr
      cases herr
    | outOfFuel =>
      have he := exec_spec_fac_fail hg hG rfl
      rw [show Container.specialized (m+1) cS tid2 sid2 sval2
        = exec (m+1) (.spec ⟨tid2, sid2, sval2⟩) cS from rfl, he] at herr
      cases herr

/-- Witness for C4's amended theorem: a concrete failing default factory and
a concrete failing specialized factory, neither memoized. -/
theorem C4_witness :
    (mapLookup (((Container.new.register_factory 1
        ⟨[], fun _ => .ok 5⟩).register_factory 0
        ⟨[.dflt 1], fun _ => .error (.FactoryError 9)⟩).default 8 0).2.1.entries 0
      = some (.Factory ⟨[.dflt 1], fun _ => .error (.FactoryError 9)⟩)
    ∧ ∀ k, ((((Container.new.register_factory 1
        ⟨[], fun _ => .ok 5⟩).register_factory 0
        ⟨[.dflt 1], fun _ => .error (.FactoryError 9)⟩).default 8 0).2.1.default
          (k+1) 0).2.2.head? = some (.dflt 0))
    ∧ (mapLookup (Container.specialized 3
        (Container.new.register_specialized_factory 0 1 2
          ⟨[], fun _ => .error (.FactoryError 8)⟩) 0 1
          2).2.1.specialized_entries ⟨0, 1, 2⟩
      = some (.SpecializedFactory ⟨[], fun _ => .error (.FactoryError 8)⟩)
    ∧ ∀ k, (Container.specialized (k+1)
        (Container.specialized 3
          (Container.new.register_specialized_factory 0 1 2
            ⟨[], fun _ => .error (.FactoryError 8)⟩) 0 1 2).2.1 0 1
        2).2.2.head? = some (.spec ⟨0, 1, 2⟩)) :=
  ⟨(C4_failed_factory_not_memoized 7 2
      ((Container.new.register_factory 1 ⟨[], fun _ => .ok 5⟩).register_factory 0
        ⟨[.dflt 1], fun _ => .error (.FactoryError 9)⟩)
      (Container.new.register_specialized_factory 0 1 2
        ⟨[], fun _ => .error (.FactoryError 8)⟩)
      0 0 1 2 ⟨[.dflt 1], fun _ => .error (.FactoryError 9)⟩
      ⟨[], fun _ => .error (.FactoryError 8)⟩ (.FactoryError 9)
      (.FactoryError 8)).1 rfl (by decide) (by decide),
   (C4_failed_factory_not_memoized 7 2
      ((Container.new.register_factory 1 ⟨[], fun _ => .ok 5⟩).register_factory 0
        ⟨[.dflt 1], fun _ => .error (.FactoryError 9)⟩)
      (Container.new.register_specialized_factory 0 1 2
        ⟨[], fun _ => .error (.FactoryError 8)⟩)
      0 0 1 2 ⟨[.dflt 1], fun _ => .error (.FactoryError 9)⟩
      ⟨[], fun _ => .error (.FactoryError 8)⟩ (.FactoryError 9)
      (.FactoryError 8)).2 rfl (by decide) (by decide)⟩

/-! ### Claim C3 -/

/-- A sequence of `resolve_default` calls for one key, each with its own fuel;
returns the final container and the concatenated invocation traces. -/
def repeatResolve (tid : TypeId) : Container → List Nat → Container × List CKey
  | c, [] => (c, [])
  | c, fl :: fls =>
    let r := c.default fl tid
    let rest := repeatResolve tid r.2.1 fls
    (rest.1, r.2.2 ++ rest.2)

/-- Resolving a key whose entry is a correctly tagged `Instance`, any number
of times, changes nothing and invokes no factory. -/
theorem repeatResolve_of_instance (tid : TypeId) (c : Container) (v : AnyVal)
    (h : mapLookup c.entries tid = some (.Instance v)) (ht : v.type_id = tid) :
    ∀ (fls : List Nat), (∀ fl ∈ fls, 0 < fl) →
      repeatResolve tid c fls = (c, []) := by
  intro fls
  induction fls with
  | nil => intro _; rfl
  | cons fl rest ih =>
    intro hpos
    obtain ⟨m, rfl⟩ : ∃ m, fl = m + 1 := by
      rcases Nat.exists_eq_add_of_lt (hpos fl (List.mem_cons_self _ _)) with ⟨m, hm⟩
      exact ⟨m, by omega⟩
    have he : c.default (m+1) tid = (.val v, c, []) := exec_dflt_inst h ht
    show (let r := c.default (m+1) tid
          let rest2 := repeatResolve tid r.2.1 rest
          ((rest2.1 : Container), r.2.2 ++ rest2.2)) = (c, [])
    rw [he]
    have hrest := ih (fun x hx => hpos x (List.mem_cons_of_mem _ hx))
    show (((repeatResolve tid c rest).1 : Container),
      ([] : List CKey) ++ (repeatResolve tid c rest).2) = (c, [])
    rw [hrest]
    rfl

/-- A sequence of `resolve_specialized` calls for one specialized key, each
with its own fuel; returns the final container and the concatenated
invocation traces. -/
def repeatResolveSpec (sk : SpecializedEntryKey) :
    Container → List Nat → Container × List CKey
  | c, [] => (c, [])
  | c, fl :: fls =>
    let r := Container.specialized fl c sk.type_id sk.specialization_type_id
      sk.specialization_value
    let rest := repeatResolveSpec sk r.2.1 fls
    (rest.1, r.2.2 ++ rest.2)

/-- Resolving a specialized key whose entry is a correctly tagged `Instance`,
any number of times, changes nothing and invokes no factory. -/
theorem repeatResolveSpec_of_instance (sk : SpecializedEntryKey) (c : Container)
    (v : AnyVal) (h : mapLookup c.specialized_entries sk = some (.Instance v))
    (ht : v.type_id = sk.type_id) :
    ∀ (fls : List Nat), (∀ fl ∈ fls, 0 < fl) →
      repeatResolveSpec sk c fls = (c, []) := by
  intro fls
  induction fls with
  | nil => intro _; rfl
  | cons fl rest ih =>
    intro hpos
    obtain ⟨m, rfl⟩ : ∃ m, fl = m + 1 := by
      rcases Nat.exists_eq_add_of_lt (hpos fl (List.mem_cons_self _ _)) with ⟨m, hm⟩
      exact ⟨m, by omega⟩
    have he : Container.specialized (m+1) c sk.type_id sk.specialization_type_id
        sk.specialization_value = (.val v, c, []) := exec_spec_inst h ht
    show (let r := Container.specialized (m+1) c sk.type_id
            sk.specialization_type_id sk.specialization_value
          let rest2 := repeatResolveSpec sk r.2.1 rest
          ((rest2.1 : Container), r.2.2 ++ rest2.2)) = (c, [])
    rw [he]
    have hrest := ih (fun x hx => hpos x (List.mem_cons_of_mem _ hx))
    show (((repeatResolveSpec sk c rest).1 : Container),
      ([] : List CKey) ++ (repeatResolveSpec sk c rest).2) = (c, [])
    rw [hrest]
    rfl

/-- C3, for both resolution paths: for a default key holding a `Factory`
entry, and likewise for a specialized key holding a `SpecializedFactory`
entry, across any number of resolution calls for that key that all succeed
the factory is invoked exactly once in the first call (given the spec's §5
contract that the factory does not re-trigger its own key), which replaces
the factory entry in place with an `Instance` entry holding the produced
value; every later call invokes no factory at all and changes nothing; and
resolution never removes any entry — every key of the store bound before the
calls is still bound after them. -/
theorem C3_factory_invoked_at_most_once (c cS : Container)
    (tid tid2 sid2 : TypeId) (sval2 : Int) (f g : FactoryProg)
    (fuel1 fuel2 : Nat) (v1 w1 : AnyVal) (c1 cS1 : Container)
    (tr1 trS1 : List CKey) (fls flsS : List Nat) :
    (mapLookup c.entries tid = some (.Factory f) →
      c.default fuel1 tid = (.val v1, c1, tr1) →
      tr1.count (CKey.dflt tid) ≤ 1 →
      (∀ fl ∈ fls, 0 < fl) →
      tr1.count (CKey.dflt tid) = 1
      ∧ mapLookup c1.entries tid = some (.Instance v1)
      ∧ repeatResolve tid c1 fls = (c1, [])
      ∧ (∀ k, (mapLookup c.entries k).isSome → (mapLookup c1.entries k).isSome))
    ∧ (mapLookup cS.specialized_entries ⟨tid2, sid2, sval2⟩
        = some (.SpecializedFactory g) →
      Container.specialized fuel2 cS tid2 sid2 sval2 = (.val w1, cS1, trS1) →
      trS1.count (CKey.spec ⟨tid2, sid2, sval2⟩) ≤ 1 →
      (∀ fl ∈ flsS, 0 < fl) →
      trS1.count (CKey.spec ⟨tid2, sid2, sval2⟩) = 1
      ∧ mapLookup cS1.specialized_entries ⟨tid2, sid2, sval2⟩
          = some (.Instance w1)
      ∧ repeatResolveSpec ⟨tid2, sid2, sval2⟩ cS1 flsS = (cS1, [])
      ∧ (∀ sk, (mapLookup cS.specialized_entries sk).isSome →
          (mapLookup cS1.specialized_entries sk).isSome)) := by
  constructor
  · intro hf h1 hsafe hfls
    have h1x : exec fuel1 (.dflt tid) c = (.val v1, c1, tr1) := h1
    have hmemo : mapLookup c1.entries tid = some (.Instance v1)
        ∧ v1.type_id = tid := by
      have := default_val_lookup fuel1 c tid v1
      rw [h1x] at this
      exact this rfl
    have hcount : tr1.count (CKey.dflt tid) = 1 := by
      cases fuel1 with
      | zero =>
        have hz : ((.outOfFuel, c, []) : ExecRes × Container × List CKey)
          = (.val v1, c1, tr1) := h1
        injection hz with ha _
        cases ha
      | succ n =>
        have hd := default_factory_trace_head n c tid f hf
        rw [h1] at hd
        have hpos : 0 < tr1.count (CKey.dflt tid) := by
          apply List.count_pos_iff.mpr
          cases tr1 with
          | nil => cases hd
          | cons x rest =>
            cases hd
            exact List.mem_cons_self _ _
        omega
    refine ⟨hcount, hmemo.1,
      repeatResolve_of_instance tid c1 v1 hmemo.1 hmemo.2 fls hfls, ?_⟩
    intro k hk
    have hev := exec_entryEvol fuel1 (.dflt tid) c k
    rw [h1x] at hev
    rcases hev with hev | ⟨_, ⟨v, hv⟩, _⟩
    · have hev2 : mapLookup c1.entries k = mapLookup c.entries k := hev
      rw [hev2]
      exact hk
    · have hv2 : mapLookup c1.entries k = some (.Instance v) := hv
      rw [hv2]
      rfl
  · intro hg h1 hsafe hfls
    have h1x : exec fuel2 (.spec ⟨tid2, sid2, sval2⟩) cS
      = (.val w1, cS1, trS1) := h1
    have hmemo : mapLookup cS1.specialized_entries ⟨tid2, sid2, sval2⟩
        = some (.Instance w1)
        ∧ w1.type_id = SpecializedEntryKey.type_id ⟨tid2, sid2, sval2⟩ := by
      have := spec_val_lookup fuel2 cS ⟨tid2, sid2, sval2⟩ w1
      rw [h1x] at this
      exact this rfl
    have hcount : trS1.count (CKey.spec ⟨tid2, sid2, sval2⟩) = 1 := by
      cases fuel2 with
      | zero =>
        have hz : ((.outOfFuel, cS, []) : ExecRes × Container × List CKey)
          = (.val w1, cS1, trS1) := h1
        injection hz with ha _
        cases ha
      | succ n =>
        have hd := spec_factory_trace_head n cS ⟨tid2, sid2, sval2⟩ g hg
        rw [h1x] at hd
        have hpos : 0 < trS1.count (CKey.spec ⟨tid2, sid2, sval2⟩) := by
          apply List.count_pos_iff.mpr
          cases trS1 with
          | nil => cases hd
          | cons x rest =>
            cases hd
            exact List.mem_cons_self _ _
        omega
    refine ⟨hcount, hmemo.1,
      repeatResolveSpec_of_instance ⟨tid2, sid2, sval2⟩ cS1 w1 hmemo.1 hmemo.2
        flsS hfls, ?_⟩
    intro sk hk
    have hev := exec_specEvol fuel2 (.spec ⟨tid2, sid2, sval2⟩) cS sk
    rw [h1x] at hev
    rcases hev with hev | ⟨_, ⟨v, hv⟩, _⟩
    · have hev2 : mapLookup cS1.specialized_entries sk
        = mapLookup cS.specialized_entries sk := hev
      rw [hev2]
      exact hk
    · have hv2 : mapLookup cS1.specialized_entries sk
        = some (.Instance v) := hv
      rw [hv2]
      rfl

/-- Witness for C3: concrete runs on both paths — the first call invokes the
factory once and memoizes, two further calls change nothing. -/
theorem C3_witness :
    (([CKey.dflt 0] : List CKey).count (CKey.dflt 0) = 1
    ∧ mapLookup ((Container.new.register_factory 0
        ⟨[], fun _ => .ok 5⟩).default 3 0).2.1.entries 0
        = some (.Instance ⟨0, 5⟩)
    ∧ repeatResolve 0 ((Container.new.register_factory 0
        ⟨[], fun _ => .ok 5⟩).default 3 0).2.1 [2, 1]
        = (((Container.new.register_factory 0 ⟨[], fun _ => .ok 5⟩).default 3 0).2.1, [])
    ∧ (∀ k, (mapLookup (Container.new.register_factory 0
          ⟨[], fun _ => .ok 5⟩).entries k).isSome →
        (mapLookup ((Container.new.register_factory 0
          ⟨[], fun _ => .ok 5⟩).default 3 0).2.1.entries k).isSome))
    ∧ (([CKey.spec ⟨0, 1, 2⟩] : List CKey).count (CKey.spec ⟨0, 1, 2⟩) = 1
    ∧ mapLookup (Container.specialized 3
        (Container.new.register_specialized_factory 0 1 2
          ⟨[], fun _ => .ok 6⟩) 0 1 2).2.1.specialized_entries ⟨0, 1, 2⟩
        = some (.Instance ⟨0, 6⟩)
    ∧ repeatResolveSpec ⟨0, 1, 2⟩ (Container.specialized 3
        (Container.new.register_specialized_factory 0 1 2
          ⟨[], fun _ => .ok 6⟩) 0 1 2).2.1 [2, 1]
        = ((Container.specialized 3
            (Container.new.register_specialized_factory 0 1 2
              ⟨[], fun _ => .ok 6⟩) 0 1 2).2.1, [])
    ∧ (∀ sk, (mapLookup (Container.new.register_specialized_factory 0 1 2
          ⟨[], fun _ => .ok 6⟩).specialized_entries sk).isSome →
        (mapLookup (Container.specialized 3
          (Container.new.register_specialized_factory 0 1 2
            ⟨[], fun _ => .ok 6⟩) 0 1 2).2.1.specialized_entries sk).isSome)) :=
  ⟨(C3_factory_invoked_at_most_once
      (Container.new.register_factory 0 ⟨[], fun _ => .ok 5⟩)
      (Container.new.register_specialized_factory 0 1 2 ⟨[], fun _ => .ok 6⟩)
      0 0 1 2 ⟨[], fun _ => .ok 5⟩ ⟨[], fun _ => .ok 6⟩ 3 3 ⟨0, 5⟩ ⟨0, 6⟩
      ((Container.new.register_factory 0 ⟨[], fun _ => .ok 5⟩).default 3 0).2.1
      (Container.specialized 3 (Container.new.register_specialized_factory 0 1 2
        ⟨[], fun _ => .ok 6⟩) 0 1 2).2.1
      [CKey.dflt 0] [CKey.spec ⟨0, 1, 2⟩] [2, 1] [2, 1]).1
      rfl rfl (by decide) (by decide),
   (C3_factory_invoked_at_most_once
      (Container.new.register_factory 0 ⟨[], fun _ => .ok 5⟩)
      (Container.new.register_specialized_factory 0 1 2 ⟨[], fun _ => .ok 6⟩)
      0 0 1 2 ⟨[], fun _ => .ok 5⟩ ⟨[], fun _ => .ok 6⟩ 3 3 ⟨0, 5⟩ ⟨0, 6⟩
      ((Container.new.register_factory 0 ⟨[], fun _ => .ok 5⟩).default 3 0).2.1
      (Container.specialized 3 (Container.new.register_specialized_factory 0 1 2
        ⟨[], fun _ => .ok 6⟩) 0 1 2).2.1
      [CKey.dflt 0] [CKey.spec ⟨0, 1, 2⟩] [2, 1] [2, 1]).2
      rfl rfl (by decide) (by decide)⟩

/-! ### Claim C9 -/

/-- The default key a public API call registers under, if any. -/
def Op.regDefaultKey : Op → Option TypeId
  | .regInstance tid _ => some tid
  | .regFactory tid _ => some tid
  | _ => none

/-- The default-store entry a public API call registers, if any. -/
def Op.regDefaultEntry : Op → Option ContainerEntry
  | .regInstance tid v => some (.Instance ⟨tid, v⟩)
  | .regFactory _ f => some (.Factory f)
  | _ => none

/-- The specialized key a public API call registers under, if any. -/
def Op.regSpecKey : Op → Option SpecializedEntryKey
  | .regSpecInstance tid sid sval _ => some ⟨tid, sid, sval⟩
  | .regSpecFactory tid sid sval _ => some ⟨tid, sid, sval⟩
  | _ => none

/-- The specialized-store entry a public API call registers, if any. -/
def Op.regSpecEntry : Op → Option ContainerEntry
  | .regSpecInstance tid _ _ v => some (.Instance ⟨tid, v⟩)
  | .regSpecFactory _ _ _ f => some (.SpecializedFactory f)
  | _ => none

/-- C9: at most one entry exists per key (a structural property of the
`HashMap` model, whose lookup returns the unique current binding), and
registering a second entry — instance or factory — under the same default or
specialized key overwrites the first: afterwards the key resolves to exactly
the second registration, whatever the first was. -/
theorem C9_registration_overwrites (c : Container) (r1 r2 : Op) :
    (∀ tid, r1.regDefaultKey = some tid → r2.regDefaultKey = some tid →
      mapLookup (applyOp (applyOp c r1) r2).entries tid = r2.regDefaultEntry)
    ∧ (∀ sk, r1.regSpecKey = some sk → r2.regSpecKey = some sk →
      mapLookup (applyOp (applyOp c r1) r2).specialized_entries sk
        = r2.regSpecEntry) := by
  constructor
  · intro tid _ h2
    cases r2 with
    | regInstance tid2 v2 =>
      have he : tid2 = tid := by
        simpa [Op.regDefaultKey] using h2
      subst he
      exact mapLookup_insert_self _ _ _
    | regFactory tid2 f2 =>
      have he : tid2 = tid := by
        simpa [Op.regDefaultKey] using h2
      subst he
      exact mapLookup_insert_self _ _ _
    | regSpecInstance tid2 sid2 sval2 v2 => simp [Op.regDefaultKey] at h2
    | regSpecFactory tid2 sid2 sval2 f2 => simp [Op.regDefaultKey] at h2
    | resolveDflt fuel tid2 => simp [Op.regDefaultKey] at h2
    | resolveSpec fuel tid2 sid2 sval2 => simp [Op.regDefaultKey] at h2
    | resolveAll fuel tid2 sid2 => simp [Op.regDefaultKey] at h2
  · intro sk _ h2
    cases r2 with
    | regInstance tid2 v2 => simp [Op.regSpecKey] at h2
    | regFactory tid2 f2 => simp [Op.regSpecKey] at h2
    | regSpecInstance tid2 sid2 sval2 v2 =>
      have he : (⟨tid2, sid2, sval2⟩ : SpecializedEntryKey) = sk := by
        simpa [Op.regSpecKey] using h2
      subst he
      exact mapLookup_insert_self _ _ _
    | regSpecFactory tid2 sid2 sval2 f2 =>
      have he : (⟨tid2, sid2, sval2⟩ : SpecializedEntryKey) = sk := by
        simpa [Op.regSpecKey] using h2
      subst he
      exact mapLookup_insert_self _ _ _
    | resolveDflt fuel tid2 => simp [Op.regSpecKey] at h2
    | resolveSpec fuel tid2 sid2 sval2 => simp [Op.regSpecKey] at h2
    | resolveAll fuel tid2 sid2 => simp [Op.regSpecKey] at h2

/-- Witness for C9: the second of two instance registrations for key `0` is
the one resolvable afterwards. -/
theorem C9_witness :
    mapLookup (applyOp (applyOp Container.new (.regInstance 0 1))
      (.regInstance 0 2)).entries 0 = some (.Instance ⟨0, 2⟩) :=
  (C9_registration_overwrites Container.new (.regInstance 0 1)
    (.regInstance 0 2)).1 0 rfl rfl

/-! ### Claim C7 -/

/-- Whether a public API call is a specialized registration (instance or
factory) recording discriminant value `x` for the pair `(tid, sid)`. -/
def Op.regsSpecVal (op : Op) (tid sid : TypeId) (x : Int) : Bool :=
  match op with
  | .regSpecInstance tid' sid' sval _ => tid' == tid && sid' == sid && sval == x
  | .regSpecFactory tid' sid' sval _ => tid' == tid && sid' == sid && sval == x
  | _ => false

/-- The enumeration loop never touches the known-specializations sets. -/
theorem allSpecializedLoop_specializations (fuel : Nat) (tid sid : TypeId) :
    ∀ (l : List Int) (c : Container),
      (allSpecializedLoop fuel c tid sid l).2.1.specializations
        = c.specializations := by
  intro l
  induction l with
  | nil => intro c; rfl
  | cons sval rest ih =>
    intro c
    show (match exec fuel (.spec ⟨tid, sid, sval⟩) c with
      | (.val x, c1, tr1) =>
        match allSpecializedLoop fuel c1 tid sid rest with
        | (.vals xs, c2, tr2) => (ExecRes.vals (x :: xs), c2, tr1 ++ tr2)
        | (res, c2, tr2) => (res, c2, tr1 ++ tr2)
      | (res, c1, tr1) => (res, c1, tr1)).2.1.specializations = c.specializations
    rcases hs : exec fuel (.spec ⟨tid, sid, sval⟩) c with ⟨res, c1, tr1⟩
    have h1 := exec_specializations fuel (.spec ⟨tid, sid, sval⟩) c
    rw [hs] at h1
    cases res with
    | val x =>
      show (match allSpecializedLoop fuel c1 tid sid rest with
        | (.vals xs, c2, tr2) => (ExecRes.vals (x :: xs), c2, tr1 ++ tr2)
        | (res, c2, tr2) => (res, c2, tr1 ++ tr2)).2.1.specializations
          = c.specializations
      rcases hr : allSpecializedLoop fuel c1 tid sid rest with ⟨res2, c2, tr2⟩
      have h2 := ih c1
      rw [hr] at h2
      cases res2 <;> exact h2.trans h1
    | vals vs => exact h1
    | err e => exact h1
    | panic => exact h1
    | outOfFuel => exact h1

/-- Membership in a known-specializations set across the private
`register_specialization` helper. -/
theorem knownSet_register_specialization (c : Container) (tidr sidr tid sid : TypeId)
    (sval x : Int) :
    x ∈ knownSet (c.register_specialization tidr sidr sval) tid sid ↔
      ((tidr = tid ∧ sidr = sid ∧ sval = x) ∨ x ∈ knownSet c tid sid) := by
  by_cases hk : (⟨tidr, sidr⟩ : KnownSpecializationKey) = ⟨tid, sid⟩
  · have h1 : tidr = tid := congrArg KnownSpecializationKey.type_id hk
    have h2 : sidr = sid := congrArg KnownSpecializationKey.specialization_type_id hk
    unfold knownSet Container.register_specialization
    rw [hk, mapLookup_insert_self]
    show x ∈ setInsert ((mapLookup c.specializations ⟨tid, sid⟩).getD []) sval ↔ _
    rw [setInsert_mem]
    constructor
    · rintro (h | h)
      · exact Or.inl ⟨h1, h2, h.symm⟩
      · exact Or.inr h
    · rintro (⟨_, _, h⟩ | h)
      · exact Or.inl h.symm
      · exact Or.inr h
  · have hne : ¬ (tidr = tid ∧ sidr = sid ∧ sval = x) := by
      rintro ⟨ha, hb, _⟩
      exact hk (by rw [ha, hb])
    unfold knownSet Container.register_specialization
    rw [mapLookup_insert_ne _ _ _ _ (fun hh => hk hh.symm)]
    constructor
    · exact fun h => Or.inr h
    · rintro (h | h)
      · exact absurd h hne
      · exact h

/-- The bulk enumeration never changes which values a known-specializations
set contains (it may only create an absent set as empty). -/
theorem knownSet_all_specialized (fuel : Nat) (c : Container)
    (tidr sidr tid sid : TypeId) (x : Int) :
    x ∈ knownSet (Container.all_specialized fuel c tidr sidr).2.1 tid sid ↔
      x ∈ knownSet c tid sid := by
  show x ∈ knownSet (allSpecializedLoop fuel
    (if (mapLookup c.specializations ⟨tidr, sidr⟩).isSome then c
     else { c with specializations := mapInsert c.specializations ⟨tidr, sidr⟩ [] })
    tidr sidr ((mapLookup c.specializations ⟨tidr, sidr⟩).getD [])).2.1 tid sid ↔ _
  unfold knownSet
  rw [allSpecializedLoop_specializations]
  cases hs : (mapLookup c.specializations ⟨tidr, sidr⟩).isSome with
  | true => rw [if_pos rfl]
  | false =>
    rw [if_neg (by simp [hs])]
    by_cases hk : (⟨tidr, sidr⟩ : KnownSpecializationKey) = ⟨tid, sid⟩
    · show x ∈ (mapLookup (mapInsert c.specializations ⟨tidr, sidr⟩ [])
        ⟨tid, sid⟩).getD [] ↔ _
      rw [← hk, mapLookup_insert_self]
      rcases ho : mapLookup c.specializations ⟨tidr, sidr⟩ with _ | l
      · exact Iff.rfl
      · rw [ho] at hs
        simp at hs
    · show x ∈ (mapLookup (mapInsert c.specializations ⟨tidr, sidr⟩ [])
        ⟨tid, sid⟩).getD [] ↔ _
      rw [mapLookup_insert_ne _ _ _ _ (fun hh => hk hh.symm)]

/-- Membership in a known-specializations set across one public API call:
the value is in the set afterwards iff the call is a specialized registration
recording it for that pair or it was in the set before.  In particular no
call ever removes a value. -/
theorem knownSet_applyOp (c : Container) (op : Op) (tid sid : TypeId) (x : Int) :
    x ∈ knownSet (applyOp c op) tid sid ↔
      (op.regsSpecVal tid sid x = true ∨ x ∈ knownSet c tid sid) := by
  cases op with
  | regInstance tidr v =>
    show x ∈ knownSet (c.register_instance tidr v) tid sid ↔ _
    simp [Op.regsSpecVal, knownSet, Container.register_instance]
  | regFactory tidr f =>
    show x ∈ knownSet (c.register_factory tidr f) tid sid ↔ _
    simp [Op.regsSpecVal, knownSet, Container.register_factory]
  | regSpecInstance tidr sidr sval v =>
    show x ∈ knownSet (Container.register_specialization _ tidr sidr sval)
      tid sid ↔ _
    rw [knownSet_register_specialization]
    simp only [Op.regsSpecVal, Bool.and_eq_true, beq_iff_eq, and_assoc]
    exact Iff.rfl
  | regSpecFactory tidr sidr sval f =>
    show x ∈ knownSet (Container.register_specialization _ tidr sidr sval)
      tid sid ↔ _
    rw [knownSet_register_specialization]
    simp only [Op.regsSpecVal, Bool.and_eq_true, beq_iff_eq, and_assoc]
    exact Iff.rfl
  | resolveDflt fuel tidr =>
    show x ∈ knownSet (exec fuel (.dflt tidr) c).2.1 tid sid ↔ _
    unfold knownSet
    rw [exec_specializations]
    simp [Op.regsSpecVal]
  | resolveSpec fuel tidr sidr sval =>
    show x ∈ knownSet (exec fuel (.spec ⟨tidr, sidr, sval⟩) c).2.1 tid sid ↔ _
    unfold knownSet
    rw [exec_specializations]
    simp [Op.regsSpecVal]
  | resolveAll fuel tidr sidr =>
    rw [show applyOp c (.resolveAll fuel tidr sidr)
      = (Container.all_specialized fuel c tidr sidr).2.1 from rfl]
    rw [knownSet_all_specialized]
    simp [Op.regsSpecVal]

/-- C7: for every (owning type, discriminant type) pair, after any sequence
of public API calls starting from the fresh container, the
known-specializations set contains exactly the discriminant values passed to
specialized registration calls (instance or factory) for that pair; and no
single API call ever removes a value from a known-specializations set. -/
theorem C7_known_specializations_exact (tid sid : TypeId) (x : Int) :
    (∀ ops : List Op,
      (x ∈ knownSet (runOps Container.new ops) tid sid ↔
        ∃ op ∈ ops, op.regsSpecVal tid sid x = true))
    ∧ (∀ (c : Container) (op : Op),
      x ∈ knownSet c tid sid → x ∈ knownSet (applyOp c op) tid sid) := by
  have key : ∀ (ops : List Op) (c : Container),
      x ∈ knownSet (runOps c ops) tid sid ↔
        ((∃ op ∈ ops, op.regsSpecVal tid sid x = true) ∨ x ∈ knownSet c tid sid) := by
    intro ops
    induction ops with
    | nil => intro c; simp [runOps]
    | cons op rest ih =>
      intro c
      show x ∈ knownSet (runOps (applyOp c op) rest) tid sid ↔ _
      rw [ih, knownSet_applyOp, List.exists_mem_cons_iff]
      constructor
      · rintro (h | h | h)
        · exact Or.inl (Or.inr h)
        · exact Or.inl (Or.inl h)
        · exact Or.inr h
      · rintro ((h | h) | h)
        · exact Or.inr (Or.inl h)
        · exact Or.inl h
        · exact Or.inr (Or.inr h)
  constructor
  · intro ops
    rw [key ops Container.new]
    have hnew : knownSet Container.new tid sid = [] := rfl
    rw [hnew]
    simp
  · intro c op h
    rw [knownSet_applyOp]
    exact Or.inr h

/-- Witness for C7: one specialized registration puts its discriminant value
in the set. -/
theorem C7_witness :
    (2 : Int) ∈ knownSet (runOps Container.new [.regSpecInstance 0 1 2 5]) 0 1 :=
  ((C7_known_specializations_exact 0 1 2).1 [.regSpecInstance 0 1 2 5]).mpr
    ⟨.regSpecInstance 0 1 2 5, List.mem_cons_self _ _, by decide⟩

/-! ### Claim C10 -/

/-- Well-formedness of the two entry stores: no default entry is a
`SpecializedFactory` and no specialized entry is a default `Factory`.  Exactly
when this holds, the `_ =>` fallback arms of `Container::default`
(src/lib.rs line 269) and `Container::specialized` (line 311) cannot fire. -/
def storesWF (c : Container) : Prop :=
  (∀ k e, mapLookup c.entries k = some e → e.isSpecFac = false)
  ∧ (∀ sk e, mapLookup c.specialized_entries sk = some e → e.isFac = false)

/-- Resolution preserves store well-formedness: it only ever overwrites
existing entries with `Instance` entries. -/
theorem exec_preserves_storesWF (fuel : Nat) (req : Req) (c : Container)
    (h : storesWF c) : storesWF (exec fuel req c).2.1 := by
  constructor
  · intro k e he
    have hev := exec_entryEvol fuel req c k
    rcases hev with hev | ⟨_, ⟨v, hv⟩, _⟩
    · exact h.1 k e (hev ▸ he)
    · rw [hv] at he
      cases he
      rfl
  · intro sk e he
    have hev := exec_specEvol fuel req c sk
    rcases hev with hev | ⟨_, ⟨v, hv⟩, _⟩
    · exact h.2 sk e (hev ▸ he)
    · rw [hv] at he
      cases he
      rfl

/-- The enumeration loop preserves store well-formedness. -/
theorem allSpecializedLoop_preserves_storesWF (fuel : Nat) (tid sid : TypeId) :
    ∀ (l : List Int) (c : Container), storesWF c →
      storesWF (allSpecializedLoop fuel c tid sid l).2.1 := by
  intro l
  induction l with
  | nil => intro c h; exact h
  | cons sval rest ih =>
    intro c h
    show storesWF (match exec fuel (.spec ⟨tid, sid, sval⟩) c with
      | (.val x, c1, tr1) =>
        match allSpecializedLoop fuel c1 tid sid rest with
        | (.vals xs, c2, tr2) => (ExecRes.vals (x :: xs), c2, tr1 ++ tr2)
        | (res, c2, tr2) => (res, c2, tr1 ++ tr2)
      | (res, c1, tr1) => (res, c1, tr1)).2.1
    rcases hs : exec fuel (.spec ⟨tid, sid, sval⟩) c with ⟨res, c1, tr1⟩
    have h1 := exec_preserves_storesWF fuel (.spec ⟨tid, sid, sval⟩) c h
    rw [hs] at h1
    cases res with
    | val x =>
      show storesWF (match allSpecializedLoop fuel c1 tid sid rest with
        | (.vals xs, c2, tr2) => (ExecRes.vals (x :: xs), c2, tr1 ++ tr2)
        | (res, c2, tr2) => (res, c2, tr1 ++ tr2)).2.1
      rcases hr : allSpecializedLoop fuel c1 tid sid rest with ⟨res2, c2, tr2⟩
      have h2 := ih c1 h1
      rw [hr] at h2
      cases res2 <;> exact h2
    | vals vs => exact h1
    | err e => exact h1
    | panic => exact h1
    | outOfFuel => exact h1

/-- Every public API call preserves store well-formedness. -/
theorem applyOp_preserves_storesWF (c : Container) (op : Op) (h : storesWF c) :
    storesWF (applyOp c op) := by
  cases op with
  | regInstance tid v =>
    constructor
    · intro k e he
      have he2 : mapLookup (mapInsert c.entries tid (.Instance ⟨tid, v⟩)) k
          = some e := he
      by_cases hk : k = tid
      · subst hk
        rw [mapLookup_insert_self] at he2
        cases he2
        rfl
      · rw [mapLookup_insert_ne _ _ _ _ hk] at he2
        exact h.1 k e he2
    · exact h.2
  | regFactory tid f =>
    constructor
    · intro k e he
      have he2 : mapLookup (mapInsert c.entries tid (.Factory f)) k = some e := he
      by_cases hk : k = tid
      · subst hk
        rw [mapLookup_insert_self] at he2
        cases he2
        rfl
      · rw [mapLookup_insert_ne _ _ _ _ hk] at he2
        exact h.1 k e he2
    · exact h.2
  | regSpecInstance tid sid sval v =>
    constructor
    · exact h.1
    · intro sk e he
      have he2 : mapLookup (mapInsert c.specialized_entries ⟨tid, sid, sval⟩
          (.Instance ⟨tid, v⟩)) sk = some e := he
      by_cases hk : sk = (⟨tid, sid, sval⟩ : SpecializedEntryKey)
      · subst hk
        rw [mapLookup_insert_self] at he2
        cases he2
        rfl
      · rw [mapLookup_insert_ne _ _ _ _ hk] at he2
        exact h.2 sk e he2
  | regSpecFactory tid sid sval f =>
    constructor
    · exact h.1
    · intro sk e he
      have he2 : mapLookup (mapInsert c.specialized_entries ⟨tid, sid, sval⟩
          (.SpecializedFactory f)) sk = some e := he
      by_cases hk : sk = (⟨tid, sid, sval⟩ : SpecializedEntryKey)
      · subst hk
        rw [mapLookup_insert_self] at he2
        cases he2
        rfl
      · rw [mapLookup_insert_ne _ _ _ _ hk] at he2
        exact h.2 sk e he2
  | resolveDflt fuel tid => exact exec_preserves_storesWF fuel (.dflt tid) c h
  | resolveSpec fuel tid sid sval =>
    exact exec_preserves_storesWF fuel (.spec ⟨tid, sid, sval⟩) c h
  | resolveAll fuel tid sid =>
    show storesWF (allSpecializedLoop fuel _ tid sid _).2.1
    apply allSpecializedLoop_preserves_storesWF
    by_cases hs : (mapLookup c.specializations ⟨tid, sid⟩).isSome
    · rw [if_pos hs]
      exact h
    · rw [if_neg hs]
      exact h

/-- C10: in every container state reachable through the public API, every
default-store entry is an `Instance` or `Factory` variant and every
specialized-store entry is an `Instance` or `SpecializedFactory` variant;
consequently the wrong-entry-kind fallback arms of the two resolution paths
(which fire exactly on a `SpecializedFactory` default entry, resp. a
`Factory` specialized entry) are unreachable. -/
theorem C10_store_entry_kinds_invariant (ops : List Op) :
    (∀ k e, mapLookup (runOps Container.new ops).entries k = some e →
      e.isSpecFac = false)
    ∧ (∀ sk e, mapLookup (runOps Container.new ops).specialized_entries sk = some e →
      e.isFac = false) := by
  have key : ∀ (ops : List Op) (c : Container), storesWF c →
      storesWF (runOps c ops) := by
    intro ops
    induction ops with
    | nil => intro c h; exact h
    | cons op rest ih =>
      intro c h
      exact ih (applyOp c op) (applyOp_preserves_storesWF c op h)
  refine key ops Container.new ⟨fun k e he => ?_, fun sk e he => ?_⟩
  · cases he
  · cases he

/-- Witness for C10: after an instance and a factory registration plus a
resolution, the looked-up entries are of the legal kinds. -/
theorem C10_witness :
    ContainerEntry.isSpecFac (.Instance ⟨0, 5⟩) = false
    ∧ ContainerEntry.isFac (.Instance ⟨1, 7⟩) = false :=
  ⟨(C10_store_entry_kinds_invariant
      [.regInstance 0 5, .regSpecInstance 1 2 3 7]).1 0 (.Instance ⟨0, 5⟩)
      rfl,
   (C10_store_entry_kinds_invariant
      [.regInstance 0 5, .regSpecInstance 1 2 3 7]).2 ⟨1, 2, 3⟩ (.Instance ⟨1, 7⟩)
      rfl⟩

/-! ### Claim C6 -/

/-- C6: a factory registered for `tidT` that re-entrantly resolves the
already-registered factory-backed `tidU` through the container succeeds and
produces the composed value `build` applied to `tidU`'s product; the first
resolution of `tidT` invokes exactly the two factories (trace
`[.dflt tidT, .dflt tidU]`), and a second resolution of `tidT` returns the
memoized composite with no factory invocation at all — `tidU`'s factory obeys
its own memoization rule independently of `tidT`'s. -/
theorem C6_reentrant_resolution (tidT tidU : TypeId) (hne : tidT ≠ tidU)
    (a b : Int) (build : List AnyVal → Except ContainerError Int)
    (hb : build [⟨tidU, a⟩] = .ok b) (fuel : Nat) (c : Container)
    (hc : c = (Container.new.register_factory tidU
      ⟨[], fun _ => .ok a⟩).register_factory tidT ⟨[.dflt tidU], build⟩) :
    (c.default (fuel+6) tidT).1 = .val ⟨tidT, b⟩
    ∧ (c.default (fuel+6) tidT).2.2 = [.dflt tidT, .dflt tidU]
    ∧ ∀ m, ((c.default (fuel+6) tidT).2.1.default (m+1) tidT)
        = (.val ⟨tidT, b⟩, (c.default (fuel+6) tidT).2.1, []) := by
  subst hc
  set fU : FactoryProg := ⟨[], fun _ => .ok a⟩ with hfU
  set fT : FactoryProg := ⟨[.dflt tidU], build⟩ with hfT
  set c0 : Container :=
    (Container.new.register_factory tidU fU).register_factory tidT fT with hc0
  have hlT : mapLookup c0.entries tidT = some (.Factory fT) :=
    mapLookup_insert_self _ _ _
  have hlU : mapLookup c0.entries tidU = some (.Factory fU) := by
    have h1 := mapLookup_insert_ne
      (mapInsert ([] : List (TypeId × ContainerEntry)) tidU (.Factory fU)) tidT
      tidU (.Factory fT) (fun h => hne h.symm)
    rw [mapLookup_insert_self] at h1
    exact h1
  have s2 : exec (fuel+2) (.fac tidU fU) c0 = (.val ⟨tidU, a⟩, c0, []) := by
    rw [exec_fac_ok exec_deps_nil]
  set cU2 : Container :=
    { c0 with entries := mapInsert c0.entries tidU (.Instance ⟨tidU, a⟩) } with hcU2
  have s3 : exec (fuel+3) (.dflt tidU) c0 = (.val ⟨tidU, a⟩, cU2, [.dflt tidU]) := by
    rw [exec_dflt_fac_ok hlU s2]
    rw [exec_dflt_inst (mapLookup_insert_self _ _ _)
      (show AnyVal.type_id ⟨tidU, a⟩ = tidU from rfl)]
    rfl
  have s4 : exec (fuel+4) (.deps [CKey.dflt tidU]) c0
      = (.vals [⟨tidU, a⟩], cU2, [.dflt tidU]) := by
    rw [@exec_deps_cons_ok (fuel+3) c0 cU2 (CKey.dflt tidU) [] ⟨tidU, a⟩
      [CKey.dflt tidU] s3]
    rw [exec_deps_nil]
    rfl
  have s5 : exec (fuel+5) (.fac tidT fT) c0 = (.val ⟨tidT, b⟩, cU2, [.dflt tidU]) := by
    rw [exec_fac_ok s4]
    rw [show FactoryProg.build fT [⟨tidU, a⟩] = Except.ok b from hb]
  set cF : Container :=
    { cU2 with entries := mapInsert cU2.entries tidT (.Instance ⟨tidT, b⟩) } with hcF
  have s6 : exec (fuel+6) (.dflt tidT) c0
      = (.val ⟨tidT, b⟩, cF, [.dflt tidT, .dflt tidU]) := by
    rw [exec_dflt_fac_ok hlT s5]
    rw [exec_dflt_inst (mapLookup_insert_self _ _ _)
      (show AnyVal.type_id ⟨tidT, b⟩ = tidT from rfl)]
    rfl
  have hD : Container.default (fuel+6) c0 tidT = exec (fuel+6) (.dflt tidT) c0 := rfl
  refine ⟨?_, ?_, ?_⟩
  · rw [hD, s6]
  · rw [hD, s6]
  · intro m
    rw [hD, s6]
    exact exec_dflt_inst (mapLookup_insert_self _ _ _)
      (show AnyVal.type_id ⟨tidT, b⟩ = tidT from rfl)

/-- Witness for C6 at concrete keys and a concrete composing factory. -/
theorem C6_witness :
    (((Container.new.register_factory 1 ⟨[], fun _ => .ok 7⟩).register_factory 0
        ⟨[.dflt 1], fun vs => match vs with
          | [v] => .ok (v.val + 100)
          | _ => .error .MissingEntry⟩).default 6 0).1 = .val ⟨0, 107⟩
    ∧ (((Container.new.register_factory 1 ⟨[], fun _ => .ok 7⟩).register_factory 0
        ⟨[.dflt 1], fun vs => match vs with
          | [v] => .ok (v.val + 100)
          | _ => .error .MissingEntry⟩).default 6 0).2.2 = [.dflt 0, .dflt 1]
    ∧ ∀ m, ((((Container.new.register_factory 1
        ⟨[], fun _ => .ok 7⟩).register_factory 0
        ⟨[.dflt 1], fun vs => match vs with
          | [v] => .ok (v.val + 100)
          | _ => .error .MissingEntry⟩).default 6 0).2.1.default (m+1) 0)
        = (.val ⟨0, 107⟩,
           (((Container.new.register_factory 1
             ⟨[], fun _ => .ok 7⟩).register_factory 0
             ⟨[.dflt 1], fun vs => match vs with
               | [v] => .ok (v.val + 100)
               | _ => .error .MissingEntry⟩).default 6 0).2.1, []) :=
  C6_reentrant_resolution 0 1 (by decide) 7 107
    (fun vs => match vs with
      | [v] => .ok (v.val + 100)
      | _ => .error .MissingEntry) rfl 0 _ rfl

/-! ### Claim C5 -/

/-- Unfolding of `all_specialized` when the known-specializations set for the
pair already exists. -/
theorem all_specialized_known {fuel : Nat} {c : Container} {tid sid : TypeId}
    {l : List Int} (h : mapLookup c.specializations ⟨tid, sid⟩ = some l) :
    Container.all_specialized fuel c tid sid = allSpecializedLoop fuel c tid sid l := by
  simp only [Container.all_specialized, h, Option.isSome_some, if_true,
    Option.getD_some]

/-- Unfolding of the enumeration loop on a successfully resolving head. -/
theorem allSpecializedLoop_cons_ok {fuel : Nat} {c c1 : Container}
    {tid sid : TypeId} {sval : Int} {v : AnyVal} {tr1 : List CKey} {rest : List Int}
    (hs : exec fuel (.spec ⟨tid, sid, sval⟩) c = (.val v, c1, tr1)) :
    allSpecializedLoop fuel c tid sid (sval :: rest) =
      (match allSpecializedLoop fuel c1 tid sid rest with
       | (.vals xs, c2, tr2) => (.vals (v :: xs), c2, tr1 ++ tr2)
       | (res, c2, tr2) => (res, c2, tr1 ++ tr2)) := by
  simp [allSpecializedLoop, hs]

/-- Enumerating after registering specialized factories for two distinct
discriminant values `X` then `Y` yields exactly their two products, in the
known-set's iteration order (which here is registration order). -/
theorem spec_pair_values (tid sid : TypeId) (X Y : Int) (hXY : X ≠ Y)
    (pX pY : Int) (fuel : Nat) (c : Container)
    (hc : c = (Container.new.register_specialized_factory tid sid X
      ⟨[], fun _ => .ok pX⟩).register_specialized_factory tid sid Y
      ⟨[], fun _ => .ok pY⟩) :
    (Container.all_specialized (fuel+4) c tid sid).1
      = .vals [⟨tid, pX⟩, ⟨tid, pY⟩] := by
  subst hc
  set fX : FactoryProg := ⟨[], fun _ => .ok pX⟩ with hfX
  set fY : FactoryProg := ⟨[], fun _ => .ok pY⟩ with hfY
  set c1 : Container := (Container.new.register_specialized_factory tid sid X
    fX).register_specialized_factory tid sid Y fY with hc1
  have hkXY : (⟨tid, sid, X⟩ : SpecializedEntryKey) ≠ ⟨tid, sid, Y⟩ :=
    fun h => hXY (congrArg SpecializedEntryKey.specialization_value h)
  have hEX : mapLookup c1.specialized_entries ⟨tid, sid, X⟩
      = some (.SpecializedFactory fX) := by
    have h1 := mapLookup_insert_ne
      (mapInsert ([] : List (SpecializedEntryKey × ContainerEntry)) ⟨tid, sid, X⟩
        (.SpecializedFactory fX)) ⟨tid, sid, Y⟩ ⟨tid, sid, X⟩
      (.SpecializedFactory fY) hkXY
    rw [mapLookup_insert_self] at h1
    exact h1
  have hEY : mapLookup c1.specialized_entries ⟨tid, sid, Y⟩
      = some (.SpecializedFactory fY) := mapLookup_insert_self _ _ _
  have hcur : mapLookup (mapInsert ([] : List (KnownSpecializationKey × List Int))
      ⟨tid, sid⟩ (setInsert [] X)) ⟨tid, sid⟩ = some (setInsert [] X) :=
    mapLookup_insert_self _ _ _
  have hsetY : setInsert (setInsert [] X) Y = [X, Y] := by
    show setInsert [X] Y = [X, Y]
    unfold setInsert
    rw [if_neg (fun h => hXY (List.mem_singleton.mp h).symm)]
    rfl
  have hKnown : mapLookup c1.specializations ⟨tid, sid⟩ = some [X, Y] := by
    have h0 : mapLookup c1.specializations ⟨tid, sid⟩
        = some (setInsert ((mapLookup (mapInsert
            ([] : List (KnownSpecializationKey × List Int)) ⟨tid, sid⟩
            (setInsert [] X)) ⟨tid, sid⟩).getD []) Y) := mapLookup_insert_self _ _ _
    rw [h0, hcur]
    show some (setInsert (setInsert [] X) Y) = some [X, Y]
    rw [hsetY]
  have sX2 : exec (fuel+3) (.fac tid fX) c1 = (.val ⟨tid, pX⟩, c1, []) := by
    rw [exec_fac_ok exec_deps_nil]
  set cA : Container :=
    { c1 with specialized_entries := mapInsert c1.specialized_entries ⟨tid, sid, X⟩ (.Instance ⟨tid, pX⟩) }
    with hcA
  have sX : exec (fuel+4) (.spec ⟨tid, sid, X⟩) c1
      = (.val ⟨tid, pX⟩, cA, [.spec ⟨tid, sid, X⟩]) := by
    rw [exec_spec_fac_ok hEX sX2]
    rw [exec_spec_inst (mapLookup_insert_self _ _ _)
      (show AnyVal.type_id ⟨tid, pX⟩
        = SpecializedEntryKey.type_id ⟨tid, sid, X⟩ from rfl)]
    rfl
  have hEYA : mapLookup cA.specialized_entries ⟨tid, sid, Y⟩
      = some (.SpecializedFactory fY) := by
    have h1 := mapLookup_insert_ne c1.specialized_entries ⟨tid, sid, X⟩
      ⟨tid, sid, Y⟩ (.Instance ⟨tid, pX⟩) (fun h => hkXY h.symm)
    rw [hEY] at h1
    exact h1
  have sY2 : exec (fuel+3) (.fac tid fY) cA = (.val ⟨tid, pY⟩, cA, []) := by
    rw [exec_fac_ok exec_deps_nil]
  set cB : Container :=
    { cA with specialized_entries := mapInsert cA.specialized_entries ⟨tid, sid, Y⟩ (.Instance ⟨tid, pY⟩) }
    with hcB
  have sY : exec (fuel+4) (.spec ⟨tid, sid, Y⟩) cA
      = (.val ⟨tid, pY⟩, cB, [.spec ⟨tid, sid, Y⟩]) := by
    rw [exec_spec_fac_ok hEYA sY2]
    rw [exec_spec_inst (mapLookup_insert_self _ _ _)
      (show AnyVal.type_id ⟨tid, pY⟩
        = SpecializedEntryKey.type_id ⟨tid, sid, Y⟩ from rfl)]
    rfl
  rw [all_specialized_known hKnown]
  rw [allSpecializedLoop_cons_ok sX]
  rw [allSpecializedLoop_cons_ok sY]
  rfl

/-- C5: registering specialized factories for distinct discriminant values
`A` and `B` of the same discriminant type under one owning type and then
enumerating with `resolve_all_specialized` returns exactly the results
{result(A), result(B)}: each registration order yields the two products in
its own (unguaranteed) iteration order, and the two outcomes are permutations
of each other — the same set either way. -/
theorem C5_specialization_round_trip (tid sid : TypeId) (A B : Int) (hAB : A ≠ B)
    (pA pB : Int) (fuel : Nat) (c1 c2 : Container)
    (h1 : c1 = (Container.new.register_specialized_factory tid sid A
      ⟨[], fun _ => .ok pA⟩).register_specialized_factory tid sid B
      ⟨[], fun _ => .ok pB⟩)
    (h2 : c2 = (Container.new.register_specialized_factory tid sid B
      ⟨[], fun _ => .ok pB⟩).register_specialized_factory tid sid A
      ⟨[], fun _ => .ok pA⟩) :
    (Container.all_specialized (fuel+4) c1 tid sid).1
      = .vals [⟨tid, pA⟩, ⟨tid, pB⟩]
    ∧ (Container.all_specialized (fuel+4) c2 tid sid).1
      = .vals [⟨tid, pB⟩, ⟨tid, pA⟩]
    ∧ List.Perm [AnyVal.mk tid pA, ⟨tid, pB⟩] [⟨tid, pB⟩, ⟨tid, pA⟩] :=
  ⟨spec_pair_values tid sid A B hAB pA pB fuel c1 h1,
   spec_pair_values tid sid B A (fun h => hAB h.symm) pB pA fuel c2 h2,
   List.Perm.swap _ _ _⟩

/-- Witness for C5 at concrete keys, discriminants and payloads. -/
theorem C5_witness :
    (Container.all_specialized 4
      ((Container.new.register_specialized_factory 0 1 2
        ⟨[], fun _ => .ok 10⟩).register_specialized_factory 0 1 3
        ⟨[], fun _ => .ok 20⟩) 0 1).1 = .vals [⟨0, 10⟩, ⟨0, 20⟩]
    ∧ (Container.all_specialized 4
      ((Container.new.register_specialized_factory 0 1 3
        ⟨[], fun _ => .ok 20⟩).register_specialized_factory 0 1 2
        ⟨[], fun _ => .ok 10⟩) 0 1).1 = .vals [⟨0, 20⟩, ⟨0, 10⟩]
    ∧ List.Perm [AnyVal.mk 0 10, ⟨0, 20⟩] [⟨0, 20⟩, ⟨0, 10⟩] :=
  C5_specialization_round_trip 0 1 2 3 (by decide) 10 20 0 _ _ rfl rfl
